import Mathlib

/-!
Verification of the NL-to-SQL pipeline in `nlq_sql.py`
(repository SoumyajitBera/NLQ-SQL-Supply_chain-management).

Shallow embedding conventions:
* Python strings are modelled as `List Char` (wrapped in `String` at the API
  surface).  Python's `str.lower`, `str.strip`, `re` word characters and
  whitespace are modelled over the ASCII range, which is the range the
  program's SQL keywords and gate strings live in.
* `re.findall` counting is modelled by a left-to-right scanner that consumes
  each match (`scanAux`); the specification-side notion "number of
  occurrences" is the per-position count (`occAux`).  The two are proved
  equal for the concrete patterns used by the program.
* `difflib.SequenceMatcher` (used by `compute_similarity`) is embedded in
  full: `b2j` with the autojunk popularity filter, the `find_longest_match`
  dynamic program with its two non-junk extension loops (the junk extension
  loops are omitted because the program constructs `SequenceMatcher(None, …)`,
  whose junk set is empty, making those loops no-ops), and the
  matching-block recursion of `get_matching_blocks` (only the total matched
  size is needed for `ratio`).  Float division in `ratio` is modelled in `ℚ`.
* `SQLApp.run` is modelled as a pure function over oracle functions for the
  CrewAI model calls and the database connection, returning the result
  together with the list of calls it made (its event trace).
-/

/-- Python's `\s` whitespace class (ASCII part), as used by `re` and by
`str.strip` on the strings occurring in this program. -/
def pySpace (c : Char) : Bool :=
  c = ' ' || c = '\t' || c = '\n' || c = '\r' || c = '\x0b' || c = '\x0c'

/-- Python's `\w` word-character class (ASCII part): letters, digits and
underscore.  `\b` in the program's regexes is a boundary between a `\w`
character and a non-`\w` position. -/
def isWordChar (c : Char) : Bool :=
  c.isAlphanum || c = '_'

/-- Python `str.lower` (ASCII range), character by character. -/
def pyLower (l : List Char) : List Char :=
  l.map Char.toLower

/-- Python `str.strip()`: drop whitespace from both ends. -/
def pyStrip (l : List Char) : List Char :=
  ((l.dropWhile pySpace).reverse.dropWhile pySpace).reverse

/-- String-level `str.lower`. -/
def pyLowerS (s : String) : String :=
  ⟨pyLower s.data⟩

/-- String-level `str.strip()`. -/
def pyStripS (s : String) : String :=
  ⟨pyStrip s.data⟩

/-- Python `str.startswith`. -/
def pyStartsWith (s pre : String) : Bool :=
  s.data.take pre.data.length = pre.data

/-- Three backticks, the code-fence marker. -/
def ticks : List Char := "```".data

/-- Model of `re.sub(r"^```(?:sql)?\s*", "", sql)`: remove one leading fence
with an optional `sql` language tag and the following whitespace. -/
def dropPrefixFence (l : List Char) : List Char :=
  if l.take 3 = ticks then
    (if (l.drop 3).take 3 = "sql".data then (l.drop 3).drop 3 else l.drop 3).dropWhile pySpace
  else l

/-- Model of `re.sub(r"\s*```$", "", sql)`: remove one trailing fence and the
whitespace before it.  (The `$`-before-final-newline case of Python regexes
cannot arise here because the input has already been stripped, so it never
ends in a newline.) -/
def dropSuffixFence (l : List Char) : List Char :=
  if l.reverse.take 3 = ticks then
    ((l.reverse.drop 3).dropWhile pySpace).reverse
  else l

/-- Model of the three normalisation lines applied to every model-produced
SQL string in `SQLApp.run`:
`sql = str(raw).strip()`,
`sql = re.sub(r"^```(?:sql)?\s*", "", sql)`,
`sql = re.sub(r"\s*```$", "", sql)`. -/
def stripFences (s : String) : String :=
  ⟨dropSuffixFence (dropPrefixFence (pyStrip s.data))⟩

section CharLemmas

theorem char_toNat_ofNat_of_valid {n : Nat} (h : n.isValidChar) :
    (Char.ofNat n).toNat = n := by
  unfold Char.ofNat
  rw [dif_pos h]
  rfl

theorem char_eq_iff_toNat {c d : Char} : c = d ↔ c.toNat = d.toNat := by
  constructor
  · intro h; rw [h]
  · intro h
    exact Char.ext (UInt32.toNat.inj h)

theorem pySpace_toNat {c : Char} (h : pySpace c = true) :
    c.toNat = 32 ∨ c.toNat = 9 ∨ c.toNat = 10 ∨ c.toNat = 13 ∨ c.toNat = 11 ∨ c.toNat = 12 := by
  simp only [pySpace, Bool.or_eq_true, decide_eq_true_eq] at h
  rcases h with ((((h | h) | h) | h) | h) | h <;> subst h <;> decide

theorem uint32_le_iff_toNat {a b : UInt32} : a ≤ b ↔ a.toNat ≤ b.toNat := Iff.rfl

theorem isUpper_toNat {c : Char} : c.isUpper = true ↔ 65 ≤ c.toNat ∧ c.toNat ≤ 90 := by
  simp only [Char.isUpper, Bool.and_eq_true, decide_eq_true_eq]
  have e65 : (65 : UInt32).toNat = 65 := rfl
  have e90 : (90 : UInt32).toNat = 90 := rfl
  constructor
  · intro ⟨h1, h2⟩
    refine ⟨?_, ?_⟩
    · have := uint32_le_iff_toNat.mp h1
      rw [e65] at this
      exact this
    · have := uint32_le_iff_toNat.mp h2
      rw [e90] at this
      exact this
  · intro ⟨h1, h2⟩
    refine ⟨uint32_le_iff_toNat.mpr ?_, uint32_le_iff_toNat.mpr ?_⟩
    · rw [e65]; exact h1
    · rw [e90]; exact h2

theorem isWordChar_of_isUpper {c : Char} (h : c.isUpper = true) : isWordChar c = true := by
  simp [isWordChar, Char.isAlphanum, Char.isAlpha, h]

theorem isWordChar_of_isLower {c : Char} (h : c.isLower = true) : isWordChar c = true := by
  simp [isWordChar, Char.isAlphanum, Char.isAlpha, h]

theorem toLower_toNat_of_upper {c : Char} (h1 : 65 ≤ c.toNat) (h2 : c.toNat ≤ 90) :
    (Char.toLower c).toNat = c.toNat + 32 := by
  show (if c.toNat ≥ 65 ∧ c.toNat ≤ 90 then Char.ofNat (c.toNat + 32) else c).toNat = c.toNat + 32
  rw [if_pos ⟨h1, h2⟩]
  exact char_toNat_ofNat_of_valid (Or.inl (by omega))

theorem toLower_of_not_upper {c : Char} (h : ¬(65 ≤ c.toNat ∧ c.toNat ≤ 90)) :
    Char.toLower c = c := by
  show (if c.toNat ≥ 65 ∧ c.toNat ≤ 90 then Char.ofNat (c.toNat + 32) else c) = c
  rw [if_neg h]

theorem pySpace_toLower (c : Char) : pySpace (Char.toLower c) = pySpace c := by
  by_cases h : 65 ≤ c.toNat ∧ c.toNat ≤ 90
  · have hl : (Char.toLower c).toNat = c.toNat + 32 := toLower_toNat_of_upper h.1 h.2
    have h1 : pySpace (Char.toLower c) = false := by
      by_contra hx
      rw [Bool.not_eq_false] at hx
      rcases pySpace_toNat hx with hv | hv | hv | hv | hv | hv <;> omega
    have h2 : pySpace c = false := by
      by_contra hx
      rw [Bool.not_eq_false] at hx
      rcases pySpace_toNat hx with hv | hv | hv | hv | hv | hv <;> omega
    rw [h1, h2]
  · rw [toLower_of_not_upper h]

theorem isWordChar_of_toLower_isLower {c d : Char} (hd : d.isLower = true)
    (h : Char.toLower c = d) : isWordChar c = true := by
  by_cases hc : 65 ≤ c.toNat ∧ c.toNat ≤ 90
  · exact isWordChar_of_isUpper (isUpper_toNat.mpr hc)
  · rw [toLower_of_not_upper hc] at h
    subst h
    exact isWordChar_of_isLower hd

theorem pySpace_ne_lparen {c : Char} (h : pySpace c = true) : c ≠ '(' := by
  intro he
  subst he
  exact absurd h (by decide)

theorem ne_lparen_of_toLower_isLower {c d : Char} (hd : d.isLower = true)
    (h : Char.toLower c = d) : c ≠ '(' := by
  intro he
  subst he
  rw [toLower_of_not_upper (by decide)] at h
  subst h
  exact absurd hd (by decide)

end CharLemmas

section StripLemmas

theorem dropWhile_head_false {p : Char → Bool} (l : List Char) {c : Char}
    (h : (l.dropWhile p).head? = some c) : p c = false := by
  induction l with
  | nil => simp at h
  | cons a xs ih =>
    rw [List.dropWhile_cons] at h
    by_cases ha : p a = true
    · rw [if_pos ha] at h
      exact ih h
    · rw [if_neg ha] at h
      simp only [List.head?_cons, Option.some.injEq] at h
      subst h
      exact Bool.not_eq_true _ ▸ ha

theorem dropWhile_eq_self_of_head {p : Char → Bool} {l : List Char}
    (h : ∀ c, l.head? = some c → p c = false) : l.dropWhile p = l := by
  cases l with
  | nil => rfl
  | cons a xs =>
    rw [List.dropWhile_cons, if_neg]
    intro ha
    have := h a rfl
    rw [ha] at this
    exact Bool.true_eq_false ▸ this

theorem suffix_getLast? {t l : List Char} (h : t <:+ l) (hne : t ≠ []) :
    t.getLast? = l.getLast? := by
  obtain ⟨s, rfl⟩ := h
  rw [List.getLast?_append_of_ne_nil s hne]

theorem prefix_head? {t l : List Char} (h : t <+: l) (hne : t ≠ []) :
    t.head? = l.head? := by
  obtain ⟨s, rfl⟩ := h
  cases t with
  | nil => exact absurd rfl hne
  | cons a xs => rfl

theorem pyStrip_head {l : List Char} {c : Char} (h : (pyStrip l).head? = some c) :
    pySpace c = false := by
  unfold pyStrip at h
  rw [List.head?_reverse] at h
  have hsfx : ((l.dropWhile pySpace).reverse.dropWhile pySpace) <:+ (l.dropWhile pySpace).reverse :=
    List.dropWhile_suffix pySpace
  have hne : ((l.dropWhile pySpace).reverse.dropWhile pySpace) ≠ [] := by
    intro he
    rw [he] at h
    simp at h
  rw [suffix_getLast? hsfx hne, List.getLast?_reverse] at h
  exact dropWhile_head_false l h

theorem pyStrip_last {l : List Char} {c : Char} (h : (pyStrip l).getLast? = some c) :
    pySpace c = false := by
  unfold pyStrip at h
  rw [List.getLast?_reverse] at h
  exact dropWhile_head_false _ h

theorem pyStrip_eq_self {l : List Char}
    (h1 : ∀ c, l.head? = some c → pySpace c = false)
    (h2 : ∀ c, l.getLast? = some c → pySpace c = false) : pyStrip l = l := by
  unfold pyStrip
  rw [dropWhile_eq_self_of_head h1]
  rw [dropWhile_eq_self_of_head (by
    intro c hc
    rw [List.head?_reverse] at hc
    exact h2 c hc)]
  exact List.reverse_reverse l

theorem dropPrefixFence_suffix (l : List Char) : dropPrefixFence l <:+ l := by
  unfold dropPrefixFence
  by_cases h : l.take 3 = ticks
  · rw [if_pos h]
    by_cases h2 : (l.drop 3).take 3 = "sql".data
    · rw [if_pos h2]
      exact ((List.dropWhile_suffix pySpace).trans (List.drop_suffix 3 (l.drop 3))).trans
        (List.drop_suffix 3 l)
    · rw [if_neg h2]
      exact (List.dropWhile_suffix pySpace).trans (List.drop_suffix 3 l)
  · rw [if_neg h]

theorem dropSuffixFence_front (l : List Char) : dropSuffixFence l <+: l := by
  unfold dropSuffixFence
  by_cases h : l.reverse.take 3 = ticks
  · rw [if_pos h]
    have hsfx : ((l.reverse.drop 3).dropWhile pySpace) <:+ l.reverse :=
      (List.dropWhile_suffix pySpace).trans (List.drop_suffix 3 l.reverse)
    have := List.reverse_prefix.mpr hsfx
    rwa [List.reverse_reverse] at this
  · rw [if_neg h]

theorem dropPrefixFence_head {l : List Char} {c : Char}
    (hl : ∀ d, l.head? = some d → pySpace d = false)
    (h : (dropPrefixFence l).head? = some c) : pySpace c = false := by
  unfold dropPrefixFence at h
  by_cases hb : l.take 3 = ticks
  · rw [if_pos hb] at h
    exact dropWhile_head_false _ h
  · rw [if_neg hb] at h
    exact hl c h

theorem dropPrefixFence_last {l : List Char} {c : Char}
    (hl : ∀ d, l.getLast? = some d → pySpace d = false)
    (h : (dropPrefixFence l).getLast? = some c) : pySpace c = false := by
  have hne : dropPrefixFence l ≠ [] := by
    intro he
    rw [he] at h
    simp at h
  rw [suffix_getLast? (dropPrefixFence_suffix l) hne] at h
  exact hl c h

theorem dropSuffixFence_last {l : List Char} {c : Char}
    (hl : ∀ d, l.getLast? = some d → pySpace d = false)
    (h : (dropSuffixFence l).getLast? = some c) : pySpace c = false := by
  unfold dropSuffixFence at h
  by_cases hb : l.reverse.take 3 = ticks
  · rw [if_pos hb] at h
    rw [List.getLast?_reverse] at h
    exact dropWhile_head_false _ h
  · rw [if_neg hb] at h
    exact hl c h

theorem dropSuffixFence_head {l : List Char} {c : Char}
    (hl : ∀ d, l.head? = some d → pySpace d = false)
    (h : (dropSuffixFence l).head? = some c) : pySpace c = false := by
  have hne : dropSuffixFence l ≠ [] := by
    intro he
    rw [he] at h
    simp at h
  rw [prefix_head? (dropSuffixFence_front l) hne] at h
  exact hl c h

theorem stripFences_head {s : String} {c : Char}
    (h : (stripFences s).data.head? = some c) : pySpace c = false := by
  unfold stripFences at h
  exact dropSuffixFence_head
    (fun d hd => dropPrefixFence_head (fun e he => pyStrip_head he) hd) h

theorem stripFences_last {s : String} {c : Char}
    (h : (stripFences s).data.getLast? = some c) : pySpace c = false := by
  unfold stripFences at h
  exact dropSuffixFence_last
    (fun d hd => dropPrefixFence_last (fun e he => pyStrip_last he) hd) h

end StripLemmas

/-- C9 counterexample: the composite stripping operation of `SQLApp.run`
(strip, remove one leading fence, remove one trailing fence) is not
idempotent.  On `"``` ```x```"` the first pass removes the outer fence pair
and yields `"```x"`, which still begins with a fence, so a second pass
removes it again and yields `"x"`. -/
theorem c9_counterexample :
    stripFences (stripFences "``` ```x```") ≠ stripFences "``` ```x```" := by decide

/-- C9 (amended): the stripping operation is idempotent on every input whose
stripped form neither begins nor ends with a ``` fence; on such strings a
second application returns its input unchanged. -/
theorem c9_fence_strip_idempotent (s : String)
    (h1 : (stripFences s).data.take 3 ≠ ticks)
    (h2 : (stripFences s).data.reverse.take 3 ≠ ticks) :
    stripFences (stripFences s) = stripFences s := by
  have hstrip : pyStrip (stripFences s).data = (stripFences s).data :=
    pyStrip_eq_self (fun c hc => stripFences_head hc) (fun c hc => stripFences_last hc)
  show (⟨dropSuffixFence (dropPrefixFence (pyStrip (stripFences s).data))⟩ : String) =
    stripFences s
  rw [hstrip]
  rw [show dropPrefixFence (stripFences s).data = (stripFences s).data from by
    unfold dropPrefixFence; rw [if_neg h1]]
  rw [show dropSuffixFence (stripFences s).data = (stripFences s).data from by
    unfold dropSuffixFence; rw [if_neg h2]]

/-- C9 witness: a typical fenced model response, stripped once, satisfies the
hypotheses of the amended idempotence theorem, and re-stripping it is the
identity. -/
theorem c9_fence_strip_idempotent_witness :
    (stripFences "```sql\nSELECT 1\n```").data.take 3 ≠ ticks ∧
    (stripFences "```sql\nSELECT 1\n```").data.reverse.take 3 ≠ ticks ∧
    stripFences (stripFences "```sql\nSELECT 1\n```") = stripFences "```sql\nSELECT 1\n```" :=
  ⟨by decide, by decide, c9_fence_strip_idempotent _ (by decide) (by decide)⟩

section Scanners

/-- Case-insensitive prefix test: does the lower-case token `tok` match the
first `tok.length` characters of `l` after lower-casing them? -/
def isLowerPrefix : List Char → List Char → Bool
  | [], _ => true
  | _ :: _, [] => false
  | p :: ps, c :: cs => (Char.toLower c == p) && isLowerPrefix ps cs

/-- A `\b` boundary holds after a match ending here: the next character, if
any, is not a word character. -/
def noWordAfter : List Char → Bool
  | [] => true
  | c :: _ => !isWordChar c

/-- Does `tok` match at the head of `l` (case-insensitively) with a word
boundary after the match? -/
def isTokenAt (tok l : List Char) : Bool :=
  isLowerPrefix tok l && noWordAfter (l.drop tok.length)

/-- The regex alternation `(tok1|tok2|...)`: the first token that matches at
the head of `l`, returning its length. -/
def matchToks (toks : List (List Char)) (l : List Char) : Option Nat :=
  toks.findSome? (fun tok => if isTokenAt tok l then some tok.length else none)

/-- Is the previous character (if any) a word character? -/
def prevIsWord : Option Char → Bool
  | none => false
  | some c => isWordChar c

/-- Matcher for `\b(tok1|...|tokn)\b` at the current position, given the
character preceding the position (`none` at the start of the string). -/
def tokenMatcher (toks : List (List Char)) (prev : Option Char) (l : List Char) : Option Nat :=
  if prevIsWord prev then none else matchToks toks l

/-- The token `select`. -/
def selectChars : List Char := "select".data

/-- Matcher for `\(\s*select\b` at the current position.  The `\s*` is forced
to consume the whole whitespace run because `select` starts with a non-space
character; the returned length is `1 + |whitespace run| + 6`. -/
def subqMatcher (_ : Option Char) (l : List Char) : Option Nat :=
  match l with
  | [] => none
  | c :: rest =>
    if c = '(' then
      if isLowerPrefix selectChars (rest.dropWhile pySpace) &&
          noWordAfter ((rest.dropWhile pySpace).drop 6) then
        some (7 + (rest.length - (rest.dropWhile pySpace).length))
      else none
    else none

/-- Model of `re.findall` counting for a matcher `M`: scan left to right;
on a match of length `n`, count it and resume after its last character.
The first argument is the number of characters of the current match still to
be skipped, the second the character before the current position. -/
def scanAux (M : Option Char → List Char → Option Nat) : Nat → Option Char → List Char → Nat
  | _, _, [] => 0
  | Nat.succ sk, _, c :: xs => scanAux M sk (some c) xs
  | 0, prev, c :: xs =>
    match M prev (c :: xs) with
    | none => scanAux M 0 (some c) xs
    | some n => 1 + scanAux M (n - 1) (some c) xs

/-- `len(re.findall(pattern, s))` for the matcher `M`. -/
def scanCount (M : Option Char → List Char → Option Nat) (l : List Char) : Nat :=
  scanAux M 0 none l

/-- Specification-side count: the number of positions of `l` at which `M`
matches. -/
def occAux (M : Option Char → List Char → Option Nat) : Option Char → List Char → Nat
  | _, [] => 0
  | prev, c :: xs => (if (M prev (c :: xs)).isSome then 1 else 0) + occAux M (some c) xs

/-- Number of match positions, starting at the beginning of the string. -/
def occCount (M : Option Char → List Char → Option Nat) (l : List Char) : Nat :=
  occAux M none l

/-- The `FORBIDDEN_TOKENS` list of `Config`. -/
def forbiddenTokens : List (List Char) :=
  ["insert".data, "update".data, "delete".data, "drop".data, "create".data, "alter".data]

/-- `Validator.count_forbidden_tokens`:
`len(re.findall(rf"\b(insert|update|delete|drop|create|alter)\b", sql, re.IGNORECASE))`. -/
def count_forbidden_tokens (sql : String) : Nat :=
  scanCount (tokenMatcher forbiddenTokens) sql.data

/-- The single-token list for `\bjoin\b`. -/
def joinTokenList : List (List Char) := ["join".data]

/-- `Validator.compute_complexity`:
`len(re.findall(r"\bjoin\b", sql, re.IGNORECASE)) + len(re.findall(r"\(\s*select\b", sql, re.IGNORECASE))`. -/
def compute_complexity (sql : String) : Nat :=
  scanCount (tokenMatcher joinTokenList) sql.data + scanCount subqMatcher sql.data

/-- Number of case-insensitive whole-word occurrences of the forbidden tokens
(the specification-side reading of the count). -/
def forbiddenOcc (l : List Char) : Nat :=
  occCount (tokenMatcher forbiddenTokens) l

/-- Number of case-insensitive whole-word occurrences of `join`. -/
def joinOcc (l : List Char) : Nat :=
  occCount (tokenMatcher joinTokenList) l

/-- Number of subquery openings: `(` followed by optional whitespace and
`select` at a word boundary. -/
def subqOcc (l : List Char) : Nat :=
  occCount subqMatcher l

end Scanners

section ScanOccEquiv

/-- The character preceding position `i` of `l`, when the character before
`l` itself is `q` (`none` if `l` starts the string). -/
def prevAt (q : Option Char) (l : List Char) (i : Nat) : Option Char :=
  if i = 0 then q else (l.take i).getLast?

theorem getLast?_cons_ne {a : Char} {t : List Char} (h : t ≠ []) :
    (a :: t).getLast? = t.getLast? := by
  cases t with
  | nil => exact absurd rfl h
  | cons b u => exact List.getLast?_cons_cons

theorem prevAt_shift (q : Option Char) (c : Char) {xs : List Char} {i : Nat}
    (h : i = 0 ∨ xs ≠ []) :
    prevAt q (c :: xs) (i + 1) = prevAt (some c) xs i := by
  by_cases hi : i = 0
  · subst hi
    simp [prevAt]
  · rcases h with h | h
    · exact absurd h hi
    · unfold prevAt
      rw [if_neg hi, if_neg (by omega : ¬ i + 1 = 0), List.take_succ_cons]
      refine getLast?_cons_ne ?_
      intro he
      rcases xs with _ | ⟨x, xs'⟩
      · exact h rfl
      · rcases i with _ | i'
        · exact hi rfl
        · simp at he

theorem matcher_nil_none {M : Option Char → List Char → Option Nat}
    (HB : ∀ p l n, M p l = some n → 1 ≤ n ∧ n ≤ l.length) (p : Option Char) :
    M p [] = none := by
  cases hm : M p [] with
  | none => rfl
  | some n =>
    have := HB p [] n hm
    simp at this
    omega

theorem scanAux_nil (M : Option Char → List Char → Option Nat) (sk : Nat) (q : Option Char) :
    scanAux M sk q [] = 0 := by
  cases sk <;> rfl

theorem scanAux_succ (M : Option Char → List Char → Option Nat) (sk : Nat) (q : Option Char)
    (c : Char) (xs : List Char) :
    scanAux M (sk + 1) q (c :: xs) = scanAux M sk (some c) xs := rfl

theorem scanAux_zero_none {M : Option Char → List Char → Option Nat} {q : Option Char}
    {c : Char} {xs : List Char} (h : M q (c :: xs) = none) :
    scanAux M 0 q (c :: xs) = scanAux M 0 (some c) xs := by
  simp [scanAux, h]

theorem scanAux_zero_some {M : Option Char → List Char → Option Nat} {q : Option Char}
    {c : Char} {xs : List Char} {n : Nat} (h : M q (c :: xs) = some n) :
    scanAux M 0 q (c :: xs) = 1 + scanAux M (n - 1) (some c) xs := by
  simp [scanAux, h]

theorem occAux_cons (M : Option Char → List Char → Option Nat) (q : Option Char)
    (c : Char) (xs : List Char) :
    occAux M q (c :: xs) = (if (M q (c :: xs)).isSome then 1 else 0) + occAux M (some c) xs := rfl

/-- The findall-style scan agrees with the per-position occurrence count for
any matcher whose matches are nonempty and fit inside the string (`HB`) and
admit no new match starting strictly inside a match (`HI`). -/
theorem scanAux_eq_occAux {M : Option Char → List Char → Option Nat}
    (HB : ∀ p l n, M p l = some n → 1 ≤ n ∧ n ≤ l.length)
    (HI : ∀ p c xs n, M p (c :: xs) = some n →
      ∀ i, i < n - 1 → M (prevAt (some c) xs i) (xs.drop i) = none) :
    ∀ (l : List Char) (q : Option Char) (sk : Nat),
      (∀ i, i < sk → M (prevAt q l i) (l.drop i) = none) →
      scanAux M sk q l = occAux M q l := by
  intro l
  induction l with
  | nil =>
    intro q sk _
    rw [scanAux_nil]
    rfl
  | cons c xs ih =>
    intro q sk hsk
    cases sk with
    | zero =>
      cases hm : M q (c :: xs) with
      | none =>
        rw [scanAux_zero_none hm, occAux_cons, hm]
        simp only [Option.isSome_none, Bool.false_eq_true, if_false, Nat.zero_add]
        exact ih (some c) 0 (by intro i hi; omega)
      | some n =>
        rw [scanAux_zero_some hm, occAux_cons, hm]
        simp only [Option.isSome_some, if_true]
        have := ih (some c) (n - 1) (HI q c xs n hm)
        omega
    | succ sk' =>
      rw [scanAux_succ, occAux_cons]
      have h0 : M q (c :: xs) = none := by
        have := hsk 0 (by omega)
        simpa [prevAt] using this
      rw [h0]
      simp only [Option.isSome_none, Bool.false_eq_true, if_false, Nat.zero_add]
      refine ih (some c) sk' ?_
      intro i hi
      by_cases hxs : xs.drop i = []
      · rw [hxs]
        exact matcher_nil_none HB _
      · have hne : xs ≠ [] := by
          intro he
          subst he
          simp at hxs
        have := hsk (i + 1) (by omega)
        rw [List.drop_succ_cons, prevAt_shift q c (Or.inr hne)] at this
        exact this

end ScanOccEquiv

section MatcherFacts

/-- Well-formedness of a token list: tokens are nonempty and consist of
lower-case ASCII letters (true of the program's keyword lists). -/
def goodToks (toks : List (List Char)) : Prop :=
  ∀ tok ∈ toks, tok ≠ [] ∧ ∀ c ∈ tok, c.isLower = true

theorem isLowerPrefix_length {tok l : List Char} (h : isLowerPrefix tok l = true) :
    tok.length ≤ l.length := by
  induction tok generalizing l with
  | nil => simp
  | cons p ps ih =>
    cases l with
    | nil => simp [isLowerPrefix] at h
    | cons c cs =>
      simp only [isLowerPrefix, Bool.and_eq_true] at h
      simpa using ih h.2

theorem isLowerPrefix_mem_take {tok l : List Char} (h : isLowerPrefix tok l = true) :
    ∀ d ∈ l.take tok.length, ∃ p ∈ tok, Char.toLower d = p := by
  induction tok generalizing l with
  | nil => simp
  | cons p ps ih =>
    cases l with
    | nil => simp [isLowerPrefix] at h
    | cons c cs =>
      simp only [isLowerPrefix, Bool.and_eq_true, beq_iff_eq] at h
      intro d hd
      simp only [List.length_cons, List.take_succ_cons, List.mem_cons] at hd
      rcases hd with rfl | hd
      · exact ⟨p, List.mem_cons_self p ps, h.1⟩
      · obtain ⟨p', hp', he⟩ := ih h.2 d hd
        exact ⟨p', List.mem_cons_of_mem p hp', he⟩

theorem wordChar_of_mem_take {tok l : List Char} (hg : ∀ c ∈ tok, c.isLower = true)
    (h : isLowerPrefix tok l = true) : ∀ d ∈ l.take tok.length, isWordChar d = true := by
  intro d hd
  obtain ⟨p, hp, he⟩ := isLowerPrefix_mem_take h d hd
  exact isWordChar_of_toLower_isLower (hg p hp) he

theorem matchToks_some {toks : List (List Char)} {l : List Char} {n : Nat}
    (h : matchToks toks l = some n) :
    ∃ tok ∈ toks, isTokenAt tok l = true ∧ n = tok.length := by
  obtain ⟨tok, htok, he⟩ := List.exists_of_findSome?_eq_some h
  by_cases ht : isTokenAt tok l = true
  · rw [if_pos ht] at he
    refine ⟨tok, htok, ht, ?_⟩
    exact (Option.some.injEq _ _ ▸ he).symm
  · rw [if_neg ht] at he
    exact absurd he (by simp)

theorem tokenMatcher_some {toks : List (List Char)} {q : Option Char} {l : List Char} {n : Nat}
    (h : tokenMatcher toks q l = some n) :
    prevIsWord q = false ∧ matchToks toks l = some n := by
  unfold tokenMatcher at h
  by_cases hq : prevIsWord q = true
  · rw [if_pos hq] at h
    exact absurd h (by simp)
  · rw [if_neg hq] at h
    exact ⟨Bool.not_eq_true _ ▸ hq, h⟩

theorem tokenMatcher_HB {toks : List (List Char)} (hg : goodToks toks) :
    ∀ p l n, tokenMatcher toks p l = some n → 1 ≤ n ∧ n ≤ l.length := by
  intro p l n h
  obtain ⟨-, hm⟩ := tokenMatcher_some h
  obtain ⟨tok, htok, hat, rfl⟩ := matchToks_some hm
  obtain ⟨hne, -⟩ := hg tok htok
  refine ⟨?_, ?_⟩
  · cases tok with
    | nil => exact absurd rfl hne
    | cons a t => simp
  · refine isLowerPrefix_length ?_
    simp only [isTokenAt, Bool.and_eq_true] at hat
    exact hat.1

theorem tokenMatcher_HI {toks : List (List Char)} (hg : goodToks toks) :
    ∀ p c xs n, tokenMatcher toks p (c :: xs) = some n →
      ∀ i, i < n - 1 → tokenMatcher toks (prevAt (some c) xs i) (xs.drop i) = none := by
  intro p c xs n hm i hi
  obtain ⟨-, hmk⟩ := tokenMatcher_some hm
  obtain ⟨tok, htok, hat, rfl⟩ := matchToks_some hmk
  obtain ⟨hne, hlow⟩ := hg tok htok
  have hpre : isLowerPrefix tok (c :: xs) = true := by
    simp only [isTokenAt, Bool.and_eq_true] at hat
    exact hat.1
  have hword := wordChar_of_mem_take hlow hpre
  have h1 : 1 ≤ tok.length := by
    cases tok with
    | nil => exact absurd rfl hne
    | cons a t => simp
  have hlen : tok.length ≤ xs.length + 1 := by simpa using isLowerPrefix_length hpre
  obtain ⟨m, hm'⟩ : ∃ m, tok.length = m + 1 := ⟨tok.length - 1, by omega⟩
  have hprev : prevIsWord (prevAt (some c) xs i) = true := by
    by_cases hi0 : i = 0
    · subst hi0
      show prevIsWord (if (0 : Nat) = 0 then some c else _) = true
      rw [if_pos rfl]
      show isWordChar c = true
      refine hword c ?_
      rw [hm', List.take_succ_cons]
      exact List.mem_cons_self c _
    · have hxlt : i < xs.length := by omega
      have hx : xs.take i ≠ [] := by
        intro he
        rcases List.take_eq_nil_iff.mp he with h | h
        · exact hi0 h
        · rw [h] at hxlt
          simp at hxlt
      obtain ⟨d, hd⟩ : ∃ d, (xs.take i).getLast? = some d := by
        cases hgl : (xs.take i).getLast? with
        | none => exact absurd (List.getLast?_eq_none_iff.mp hgl) hx
        | some d => exact ⟨d, rfl⟩
      have hdmem : d ∈ xs.take i := List.mem_of_getLast?_eq_some hd
      have htt : (xs.take m).take i = xs.take i := by
        rw [List.take_take, Nat.min_eq_left (by omega)]
      have hdmem2 : d ∈ (c :: xs).take tok.length := by
        rw [hm', List.take_succ_cons]
        refine List.mem_cons_of_mem c ?_
        refine List.take_subset i (xs.take m) ?_
        rw [htt]
        exact hdmem
      show prevIsWord (if i = 0 then some c else (xs.take i).getLast?) = true
      rw [if_neg hi0, hd]
      exact hword d hdmem2
  simp [tokenMatcher, hprev]

end MatcherFacts

section SubqFacts

theorem subqMatcher_nil (q : Option Char) : subqMatcher q [] = none := rfl

theorem subqMatcher_some_cons {q : Option Char} {c : Char} {xs : List Char} {n : Nat}
    (h : subqMatcher q (c :: xs) = some n) :
    c = '(' ∧ isLowerPrefix selectChars (xs.dropWhile pySpace) = true ∧
    noWordAfter ((xs.dropWhile pySpace).drop 6) = true ∧
    n = 7 + (xs.length - (xs.dropWhile pySpace).length) := by
  simp only [subqMatcher] at h
  by_cases hc : c = '('
  · rw [if_pos hc] at h
    by_cases hcond : (isLowerPrefix selectChars (xs.dropWhile pySpace) &&
        noWordAfter ((xs.dropWhile pySpace).drop 6)) = true
    · rw [if_pos hcond] at h
      simp only [Option.some.injEq] at h
      simp only [Bool.and_eq_true] at hcond
      exact ⟨hc, hcond.1, hcond.2, h.symm⟩
    · rw [if_neg hcond] at h
      exact absurd h (by simp)
  · rw [if_neg hc] at h
    exact absurd h (by simp)

theorem selectChars_length : selectChars.length = 6 := rfl

theorem subqMatcher_HB : ∀ p l n, subqMatcher p l = some n → 1 ≤ n ∧ n ≤ l.length := by
  intro p l n h
  cases l with
  | nil => exact absurd h (by simp [subqMatcher_nil])
  | cons c xs =>
    obtain ⟨-, hpre, -, rfl⟩ := subqMatcher_some_cons h
    have h6 : 6 ≤ (xs.dropWhile pySpace).length := by
      have := isLowerPrefix_length hpre
      rw [selectChars_length] at this
      exact this
    have hle : (xs.dropWhile pySpace).length ≤ xs.length :=
      (List.dropWhile_suffix pySpace).length_le
    refine ⟨by omega, ?_⟩
    simp only [List.length_cons]
    omega

theorem subq_none_of_head {q : Option Char} {l : List Char}
    (h : ∀ d, l.head? = some d → d ≠ '(') : subqMatcher q l = none := by
  cases l with
  | nil => rfl
  | cons c rest =>
    simp only [subqMatcher]
    rw [if_neg (h c rfl)]

theorem selectChars_lower : ∀ p ∈ selectChars, p.isLower = true := by decide

theorem subqMatcher_HI : ∀ p c xs n, subqMatcher p (c :: xs) = some n →
    ∀ i, i < n - 1 → subqMatcher (prevAt (some c) xs i) (xs.drop i) = none := by
  intro p c xs n hm i hi
  obtain ⟨-, hpre, -, hn⟩ := subqMatcher_some_cons hm
  subst hn
  have hw : (xs.takeWhile pySpace).length + (xs.dropWhile pySpace).length = xs.length := by
    conv_rhs => rw [← List.takeWhile_append_dropWhile pySpace xs]
    rw [List.length_append]
  apply subq_none_of_head
  intro d hd
  have hdg : xs[i]? = some d := by
    rw [List.head?_eq_getElem?, List.getElem?_drop] at hd
    simpa using hd
  have h1 : ((xs.takeWhile pySpace) ++ (xs.dropWhile pySpace))[i]? = some d := by
    rw [List.takeWhile_append_dropWhile]
    exact hdg
  by_cases hiw : i < (xs.takeWhile pySpace).length
  · rw [List.getElem?_append_left hiw] at h1
    exact pySpace_ne_lparen (List.mem_takeWhile_imp (List.getElem?_mem h1))
  · push_neg at hiw
    rw [List.getElem?_append_right hiw] at h1
    have hlt : i - (xs.takeWhile pySpace).length < 6 := by omega
    have h2 : ((xs.dropWhile pySpace).take 6)[i - (xs.takeWhile pySpace).length]? = some d := by
      rw [List.getElem?_take_of_lt hlt]
      exact h1
    have hmem : d ∈ (xs.dropWhile pySpace).take selectChars.length :=
      List.getElem?_mem h2
    obtain ⟨pp, hpp, hlow⟩ := isLowerPrefix_mem_take hpre d hmem
    exact ne_lparen_of_toLower_isLower (selectChars_lower pp hpp) hlow

end SubqFacts

section CountEquiv

theorem goodToks_forbidden : goodToks forbiddenTokens := by
  unfold goodToks
  decide

theorem goodToks_join : goodToks joinTokenList := by
  unfold goodToks
  decide

theorem scanCount_eq_occCount_token {toks : List (List Char)} (hg : goodToks toks)
    (l : List Char) : scanCount (tokenMatcher toks) l = occCount (tokenMatcher toks) l :=
  scanAux_eq_occAux (tokenMatcher_HB hg) (tokenMatcher_HI hg) l none 0
    (by intro i hi; omega)

theorem scanCount_eq_occCount_subq (l : List Char) :
    scanCount subqMatcher l = occCount subqMatcher l :=
  scanAux_eq_occAux subqMatcher_HB subqMatcher_HI l none 0
    (by intro i hi; omega)

theorem count_forbidden_eq_occ (sql : String) :
    count_forbidden_tokens sql = forbiddenOcc sql.data :=
  scanCount_eq_occCount_token goodToks_forbidden sql.data

theorem complexity_eq_occ (sql : String) :
    compute_complexity sql = joinOcc sql.data + subqOcc sql.data := by
  unfold compute_complexity joinOcc subqOcc
  rw [scanCount_eq_occCount_token goodToks_join, scanCount_eq_occCount_subq]

end CountEquiv

/-- C6: for every SQL string containing at least one case-insensitive
whole-word occurrence of a forbidden token (insert, update, delete, drop,
create, alter), `count_forbidden_tokens` returns a count ≥ 1, and the count
equals the number of such whole-word occurrences. -/
theorem c6_count_forbidden_tokens (sql : String) (h : 0 < forbiddenOcc sql.data) :
    1 ≤ count_forbidden_tokens sql ∧ count_forbidden_tokens sql = forbiddenOcc sql.data := by
  have he := count_forbidden_eq_occ sql
  exact ⟨by omega, he⟩

/-- C6 witness: a concrete query with one `DROP`, evaluated. -/
theorem c6_count_forbidden_tokens_witness :
    0 < forbiddenOcc "SELECT 1; DROP TABLE users".data ∧
    (1 ≤ count_forbidden_tokens "SELECT 1; DROP TABLE users" ∧
      count_forbidden_tokens "SELECT 1; DROP TABLE users" =
        forbiddenOcc "SELECT 1; DROP TABLE users".data) :=
  ⟨by decide, c6_count_forbidden_tokens _ (by decide)⟩

section AppendLemmas

/-- Context seen by a matcher after scanning past `l`, starting from context
`q`: the last character of `l` if there is one. -/
def lastCtx (q : Option Char) (l : List Char) : Option Char :=
  match l.getLast? with
  | some c => some c
  | none => q

theorem lastCtx_cons (q : Option Char) (c : Char) (xs : List Char) :
    lastCtx q (c :: xs) = lastCtx (some c) xs := by
  unfold lastCtx
  cases xs with
  | nil => rfl
  | cons b u =>
    rw [getLast?_cons_ne (by simp : (b :: u) ≠ [])]
    cases hgl : (b :: u).getLast? with
    | none => exact absurd (List.getLast?_eq_none_iff.mp hgl) (by simp)
    | some d => rfl

/-- Occurrence counting distributes over an append whose second part cannot
change whether the matcher fires anywhere in the first part. -/
theorem occAux_append {M : Option Char → List Char → Option Nat} {t : List Char}
    (hcross : ∀ q (u : List Char), u ≠ [] → M q (u ++ t) = M q u) :
    ∀ (l : List Char) (q : Option Char),
      occAux M q (l ++ t) = occAux M q l + occAux M (lastCtx q l) t := by
  intro l
  induction l with
  | nil =>
    intro q
    show occAux M q t = 0 + occAux M (lastCtx q []) t
    rw [Nat.zero_add]
    rfl
  | cons c xs ih =>
    intro q
    have h1 : M q ((c :: xs) ++ t) = M q (c :: xs) := hcross q (c :: xs) (by simp)
    show (if (M q ((c :: xs) ++ t)).isSome then 1 else 0) + occAux M (some c) (xs ++ t) = _
    rw [h1, ih (some c), lastCtx_cons]
    show _ = (if (M q (c :: xs)).isSome then 1 else 0) + occAux M (some c) xs + _
    omega

theorem isLowerPrefix_append_of_le {tok u : List Char} (h : tok.length ≤ u.length)
    {v : List Char} : isLowerPrefix tok (u ++ v) = isLowerPrefix tok u := by
  induction tok generalizing u with
  | nil => rfl
  | cons p ps ih =>
    cases u with
    | nil => simp at h
    | cons c cs =>
      show ((Char.toLower c == p) && isLowerPrefix ps (cs ++ v))
          = ((Char.toLower c == p) && isLowerPrefix ps cs)
      rw [ih (by simpa using h)]

theorem isLowerPrefix_append_short : ∀ {tok u : List Char} {c0 : Char} {t' : List Char},
    (∀ c ∈ tok, c.isLower = true) → isWordChar c0 = false → u.length < tok.length →
    isLowerPrefix tok (u ++ c0 :: t') = false := by
  intro tok u
  induction u generalizing tok with
  | nil =>
    intro c0 t' hg hc0 hlen
    cases tok with
    | nil => simp at hlen
    | cons p ps =>
      show ((Char.toLower c0 == p) && isLowerPrefix ps t') = false
      have hne : ¬(Char.toLower c0 = p) := by
        intro he
        have hw := isWordChar_of_toLower_isLower (hg p (List.mem_cons_self p ps)) he
        rw [hw] at hc0
        exact Bool.noConfusion hc0
      simp [hne]
  | cons a u' ih =>
    intro c0 t' hg hc0 hlen
    cases tok with
    | nil => simp at hlen
    | cons p ps =>
      show ((Char.toLower a == p) && isLowerPrefix ps (u' ++ c0 :: t')) = false
      rw [ih (fun c hc => hg c (List.mem_cons_of_mem p hc)) hc0 (by simpa using hlen)]
      simp

theorem isTokenAt_append {tok u : List Char} {c0 : Char} {t' : List Char}
    (hg : tok ≠ [] ∧ ∀ c ∈ tok, c.isLower = true) (hc0 : isWordChar c0 = false)
    (_hu : u ≠ []) :
    isTokenAt tok (u ++ c0 :: t') = isTokenAt tok u := by
  by_cases hlen : tok.length ≤ u.length
  · unfold isTokenAt
    rw [isLowerPrefix_append_of_le hlen]
    rw [List.drop_append_of_le_length hlen]
    rcases hdu : u.drop tok.length with _ | ⟨d, ds⟩
    · rw [List.nil_append]
      have h1 : noWordAfter (c0 :: t') = true := by
        show (!isWordChar c0) = true
        rw [hc0]
        rfl
      have h2 : noWordAfter ([] : List Char) = true := rfl
      rw [h1, h2]
    · rfl
  · push_neg at hlen
    unfold isTokenAt
    rw [isLowerPrefix_append_short hg.2 hc0 hlen]
    have hf : isLowerPrefix tok u = false := by
      by_contra hx
      rw [Bool.not_eq_false] at hx
      exact absurd (isLowerPrefix_length hx) (by omega)
    rw [hf]
    simp

theorem matchToks_append {u : List Char} {c0 : Char} {t' : List Char}
    (hc0 : isWordChar c0 = false) (hu : u ≠ []) :
    ∀ (toks : List (List Char)), goodToks toks →
      matchToks toks (u ++ c0 :: t') = matchToks toks u := by
  intro toks
  induction toks with
  | nil => intro _; rfl
  | cons tok toks ih =>
    intro hg
    unfold matchToks
    rw [List.findSome?_cons, List.findSome?_cons]
    rw [isTokenAt_append (hg tok (List.mem_cons_self tok toks)) hc0 hu]
    by_cases ht : isTokenAt tok u = true
    · rw [if_pos ht]
    · rw [if_neg ht]
      have := ih (fun tk hk => hg tk (List.mem_cons_of_mem tok hk))
      unfold matchToks at this
      exact this

theorem tokenMatcher_cross {toks : List (List Char)} {c0 : Char} {t' : List Char}
    (hg : goodToks toks) (hc0 : isWordChar c0 = false) :
    ∀ q (u : List Char), u ≠ [] →
      tokenMatcher toks q (u ++ c0 :: t') = tokenMatcher toks q u := by
  intro q u hu
  unfold tokenMatcher
  rw [matchToks_append hc0 hu toks hg]

end AppendLemmas

section JoinClause

/-- The representative whole-word JOIN clause appended in C7. -/
def joinClause : List Char := " JOIN t2 ON a = b".data

theorem subq_cross_clause (q : Option Char) (u : List Char) (hu : u ≠ []) :
    subqMatcher q (u ++ joinClause) = subqMatcher q u := by
  cases u with
  | nil => exact absurd rfl hu
  | cons a u' =>
    show subqMatcher q (a :: (u' ++ joinClause)) = subqMatcher q (a :: u')
    simp only [subqMatcher]
    by_cases ha : a = '('
    · rw [if_pos ha, if_pos ha]
      by_cases hall : (u'.dropWhile pySpace).isEmpty
      · have hR : u'.dropWhile pySpace = [] := by
          rwa [List.isEmpty_iff] at hall
        have hL : (u' ++ joinClause).dropWhile pySpace = "JOIN t2 ON a = b".data := by
          rw [List.dropWhile_append, if_pos hall]
          rfl
        rw [hL, hR]
        rw [show isLowerPrefix selectChars "JOIN t2 ON a = b".data = false from by decide]
        rw [show isLowerPrefix selectChars ([] : List Char) = false from by decide]
        simp
      · have hR : (u' ++ joinClause).dropWhile pySpace = (u'.dropWhile pySpace) ++ joinClause := by
          rw [List.dropWhile_append, if_neg hall]
        rw [hR]
        have hdlen : (u'.dropWhile pySpace).length ≤ u'.length :=
          (List.dropWhile_suffix pySpace).length_le
        have hlen_eq : (u' ++ joinClause).length - ((u'.dropWhile pySpace) ++ joinClause).length
            = u'.length - (u'.dropWhile pySpace).length := by
          simp only [List.length_append]
          omega
        by_cases h6 : 6 ≤ (u'.dropWhile pySpace).length
        · rw [isLowerPrefix_append_of_le (by rw [selectChars_length]; exact h6)]
          rw [show ((u'.dropWhile pySpace) ++ joinClause).drop 6
              = (u'.dropWhile pySpace).drop 6 ++ joinClause from
            List.drop_append_of_le_length h6]
          have hnw : noWordAfter ((u'.dropWhile pySpace).drop 6 ++ joinClause)
              = noWordAfter ((u'.dropWhile pySpace).drop 6) := by
            rcases hdd : (u'.dropWhile pySpace).drop 6 with _ | ⟨d, ds⟩
            · rw [List.nil_append]
              decide
            · rfl
          rw [hnw, hlen_eq]
        · rw [show (u'.dropWhile pySpace) ++ joinClause
              = (u'.dropWhile pySpace) ++ ' ' :: "JOIN t2 ON a = b".data from rfl]
          rw [isLowerPrefix_append_short selectChars_lower (by decide)
            (by rw [selectChars_length]; omega)]
          have hf : isLowerPrefix selectChars (u'.dropWhile pySpace) = false := by
            by_contra hx
            rw [Bool.not_eq_false] at hx
            have := isLowerPrefix_length hx
            rw [selectChars_length] at this
            omega
          rw [hf]
          simp
    · rw [if_neg ha, if_neg ha]

theorem occ_join_clause (q : Option Char) :
    occAux (tokenMatcher joinTokenList) q joinClause = 1 := by
  have h0 : tokenMatcher joinTokenList q joinClause = none := by
    unfold tokenMatcher
    rw [show matchToks joinTokenList joinClause = none from by decide, ite_self]
  show (if (tokenMatcher joinTokenList q joinClause).isSome then 1 else 0) +
      occAux (tokenMatcher joinTokenList) (some ' ') "JOIN t2 ON a = b".data = 1
  rw [h0]
  simp only [Option.isSome_none, Bool.false_eq_true, if_false, Nat.zero_add]
  decide

theorem occ_subq_clause (q : Option Char) :
    occAux subqMatcher q joinClause = 0 := by
  show (if (subqMatcher q joinClause).isSome then 1 else 0) +
      occAux subqMatcher (some ' ') "JOIN t2 ON a = b".data = 0
  rw [show subqMatcher q joinClause = none from rfl]
  simp only [Option.isSome_none, Bool.false_eq_true, if_false, Nat.zero_add]
  decide

theorem joinOcc_append_clause (l : List Char) :
    joinOcc (l ++ joinClause) = joinOcc l + 1 := by
  unfold joinOcc occCount
  rw [@occAux_append (tokenMatcher joinTokenList) joinClause
    (fun q u hu => by
      rw [show u ++ joinClause = u ++ ' ' :: "JOIN t2 ON a = b".data from rfl]
      exact tokenMatcher_cross goodToks_join (by decide) q u hu)]
  rw [occ_join_clause]

theorem subqOcc_append_clause (l : List Char) :
    subqOcc (l ++ joinClause) = subqOcc l := by
  unfold subqOcc occCount
  rw [@occAux_append subqMatcher joinClause subq_cross_clause]
  rw [occ_subq_clause]
  omega

end JoinClause

/-- C7: `compute_complexity` returns 0 on every SQL string with no
whole-word `join` occurrence and no subquery opening, and appending one
whole-word JOIN clause to any SQL string increases the score by exactly 1. -/
theorem c7_compute_complexity (sql : String) :
    (joinOcc sql.data = 0 → subqOcc sql.data = 0 → compute_complexity sql = 0) ∧
    compute_complexity (sql ++ " JOIN t2 ON a = b") = compute_complexity sql + 1 := by
  constructor
  · intro h1 h2
    rw [complexity_eq_occ, h1, h2]
  · rw [complexity_eq_occ, complexity_eq_occ]
    have hd : (sql ++ " JOIN t2 ON a = b").data = sql.data ++ joinClause := by
      rw [String.data_append]
      rfl
    rw [hd, joinOcc_append_clause, subqOcc_append_clause]
    omega

/-- C7 witness: a join-free, subquery-free query has complexity 0, and
appending the JOIN clause yields complexity 1. -/
theorem c7_compute_complexity_witness :
    joinOcc "SELECT * FROM products".data = 0 ∧
    subqOcc "SELECT * FROM products".data = 0 ∧
    compute_complexity "SELECT * FROM products" = 0 ∧
    compute_complexity ("SELECT * FROM products" ++ " JOIN t2 ON a = b") =
      compute_complexity "SELECT * FROM products" + 1 :=
  ⟨by decide, by decide,
    (c7_compute_complexity "SELECT * FROM products").1 (by decide) (by decide),
    (c7_compute_complexity "SELECT * FROM products").2⟩

section RunPipeline

/-- A pandas DataFrame, abstracted to its column names and row-major cells. -/
structure DataFrame where
  cols : List String
  rows : List (List String)
deriving DecidableEq

/-- The validator-derived values that appear in the final metrics block.
The two latency fields of the Python metrics string are wall-clock values
outside the embedding. -/
structure MetricsData where
  rowsReturned : Nat
  columns : Nat
  syntaxValid : Bool
  forbiddenCount : Nat
  complexityScore : Nat
deriving DecidableEq

/-- The `Validator` as used by `SQLApp.run`, abstracted to its three outputs
so claims about their (non-)influence can quantify over them
(`validate_syntax` calls the external `sqlparse` library; the concrete
embeddings of the other two are `count_forbidden_tokens` and
`compute_complexity` above). -/
structure ValidatorI where
  syntaxOf : String → Bool
  forbiddenOf : String → Nat
  complexityOf : String → Nat

/-- Response oracles for the CrewAI crews created by `SQLApp` (`run` never
invokes the SQL-to-text crew).  `regen` receives the failing SQL, the schema
text and the database error message, exactly the three inputs of
`verify_crew.kickoff`. -/
structure Crews where
  intent : String → String
  gen : String → String
  ddl : String → String
  regen : String → String → String → String

/-- A live MySQL connection, abstracted to its response to a statement:
either a materialized result set or a raised `mysql.connector` error. -/
def Conn : Type := String → Except String DataFrame

/-- `DatabaseHandler.execute_sql_query`: with no connection (degraded state)
every call returns an empty DataFrame without raising; with a live
connection the cursor either materializes all rows or raises. -/
def execute_sql_query (conn : Option Conn) (sql : String) : Except String DataFrame :=
  match conn with
  | none => Except.ok ⟨[], []⟩
  | some c => c sql

/-- One observable external call made during a run. -/
inductive RunEvent where
  | intentCall (q : String)
  | genCall (q : String)
  | validateCall (sql : String)
  | ddlCall (sql : String)
  | execCall (sql : String)
  | regenCall (sql schema err : String)
deriving DecidableEq

/-- Result and event trace of one run.  `result` is `Except.error e` when
the run lets the exception `e` propagate to its caller. -/
structure RunOutput where
  result : Except String (String × String × String)
  events : List RunEvent

/-- The events of a run that executed `sql0` once, successfully or not. -/
def execTrace (q sql0 : String) : List RunEvent :=
  [RunEvent.intentCall q, RunEvent.genCall q,
    RunEvent.validateCall sql0, RunEvent.ddlCall sql0, RunEvent.execCall sql0]

/-- The events of a run whose first execution of `sql0` raised `e`, after
which the regenerated `sql1` was executed once. -/
def retryTrace (q sql0 schema e sql1 : String) : List RunEvent :=
  execTrace q sql0 ++ [RunEvent.regenCall sql0 schema e, RunEvent.execCall sql1]

/-- Model of `SQLApp.run`.  `render` stands for `df.head().to_string(index=False)`
applied to the first five rows, and `renderM` for the metrics f-string; both
are abstract because only which values they receive matters to the claims.
The validator values in the metrics are computed from the SQL string produced
by the generation step (before any regeneration), as in the source. -/
def runM (v : ValidatorI) (cr : Crews) (conn : Option Conn)
    (render : List (List String) → String) (renderM : MetricsData → String)
    (schema : String) (q : String) : RunOutput :=
  if pyStripS (pyLowerS (cr.intent q)) ≠ "valid" then
    { result := Except.ok ("Invalid query", "", ""), events := [RunEvent.intentCall q] }
  else if pyStartsWith (pyLowerS (cr.ddl (stripFences (cr.gen q)))) "error" then
    { result := Except.ok ("DDL operations not allowed.", "", ""),
      events := [RunEvent.intentCall q, RunEvent.genCall q,
        RunEvent.validateCall (stripFences (cr.gen q)),
        RunEvent.ddlCall (stripFences (cr.gen q))] }
  else
    match execute_sql_query conn (stripFences (cr.gen q)) with
    | Except.ok df =>
        { result := Except.ok (stripFences (cr.gen q), render (df.rows.take 5),
            renderM ⟨df.rows.length, df.cols.length,
              v.syntaxOf (stripFences (cr.gen q)),
              v.forbiddenOf (stripFences (cr.gen q)),
              v.complexityOf (stripFences (cr.gen q))⟩),
          events := execTrace q (stripFences (cr.gen q)) }
    | Except.error e =>
        match execute_sql_query conn (stripFences (cr.regen (stripFences (cr.gen q)) schema e)) with
        | Except.ok df =>
            { result := Except.ok (stripFences (cr.regen (stripFences (cr.gen q)) schema e),
                render (df.rows.take 5),
                renderM ⟨df.rows.length, df.cols.length,
                  v.syntaxOf (stripFences (cr.gen q)),
                  v.forbiddenOf (stripFences (cr.gen q)),
                  v.complexityOf (stripFences (cr.gen q))⟩),
              events := retryTrace q (stripFences (cr.gen q)) schema e
                (stripFences (cr.regen (stripFences (cr.gen q)) schema e)) }
        | Except.error e2 =>
            { result := Except.error e2,
              events := retryTrace q (stripFences (cr.gen q)) schema e
                (stripFences (cr.regen (stripFences (cr.gen q)) schema e)) }

end RunPipeline

section RunShape

theorem dropWhile_pySpace_map_toLower (l : List Char) :
    (l.map Char.toLower).dropWhile pySpace = (l.dropWhile pySpace).map Char.toLower := by
  induction l with
  | nil => rfl
  | cons c xs ih =>
    simp only [List.map_cons, List.dropWhile_cons, pySpace_toLower]
    by_cases h : pySpace c = true
    · rw [if_pos h, if_pos h, ih]
    · rw [if_neg h, if_neg h]
      rfl

theorem pyStrip_pyLower_comm (l : List Char) : pyStrip (pyLower l) = pyLower (pyStrip l) := by
  unfold pyStrip pyLower
  rw [dropWhile_pySpace_map_toLower, ← List.map_reverse, dropWhile_pySpace_map_toLower,
    ← List.map_reverse]

theorem pyStripS_pyLowerS_comm (s : String) :
    pyStripS (pyLowerS s) = pyLowerS (pyStripS s) := by
  show (⟨pyStrip (pyLower s.data)⟩ : String) = ⟨pyLower (pyStrip s.data)⟩
  rw [pyStrip_pyLower_comm]

theorem runM_invalid {v : ValidatorI} {cr : Crews} {conn : Option Conn}
    {render : List (List String) → String} {renderM : MetricsData → String}
    {schema q : String}
    (h : pyStripS (pyLowerS (cr.intent q)) ≠ "valid") :
    runM v cr conn render renderM schema q =
      { result := Except.ok ("Invalid query", "", ""),
        events := [RunEvent.intentCall q] } := by
  unfold runM
  rw [if_pos h]

theorem runM_blocked {v : ValidatorI} {cr : Crews} {conn : Option Conn}
    {render : List (List String) → String} {renderM : MetricsData → String}
    {schema q : String}
    (h1 : pyStripS (pyLowerS (cr.intent q)) = "valid")
    (h2 : pyStartsWith (pyLowerS (cr.ddl (stripFences (cr.gen q)))) "error" = true) :
    runM v cr conn render renderM schema q =
      { result := Except.ok ("DDL operations not allowed.", "", ""),
        events := [RunEvent.intentCall q, RunEvent.genCall q,
          RunEvent.validateCall (stripFences (cr.gen q)),
          RunEvent.ddlCall (stripFences (cr.gen q))] } := by
  unfold runM
  rw [if_neg (by simp [h1]), if_pos h2]

theorem runM_exec_ok {v : ValidatorI} {cr : Crews} {conn : Option Conn}
    {render : List (List String) → String} {renderM : MetricsData → String}
    {schema q : String} {df : DataFrame}
    (h1 : pyStripS (pyLowerS (cr.intent q)) = "valid")
    (h2 : pyStartsWith (pyLowerS (cr.ddl (stripFences (cr.gen q)))) "error" = false)
    (h3 : execute_sql_query conn (stripFences (cr.gen q)) = Except.ok df) :
    runM v cr conn render renderM schema q =
      { result := Except.ok (stripFences (cr.gen q), render (df.rows.take 5),
          renderM ⟨df.rows.length, df.cols.length,
            v.syntaxOf (stripFences (cr.gen q)),
            v.forbiddenOf (stripFences (cr.gen q)),
            v.complexityOf (stripFences (cr.gen q))⟩),
        events := execTrace q (stripFences (cr.gen q)) } := by
  unfold runM
  rw [if_neg (by simp [h1]), if_neg (by simp [h2]), h3]

theorem runM_retry_ok {v : ValidatorI} {cr : Crews} {conn : Option Conn}
    {render : List (List String) → String} {renderM : MetricsData → String}
    {schema q : String} {e : String} {df : DataFrame}
    (h1 : pyStripS (pyLowerS (cr.intent q)) = "valid")
    (h2 : pyStartsWith (pyLowerS (cr.ddl (stripFences (cr.gen q)))) "error" = false)
    (h3 : execute_sql_query conn (stripFences (cr.gen q)) = Except.error e)
    (h4 : execute_sql_query conn (stripFences (cr.regen (stripFences (cr.gen q)) schema e))
        = Except.ok df) :
    runM v cr conn render renderM schema q =
      { result := Except.ok (stripFences (cr.regen (stripFences (cr.gen q)) schema e),
          render (df.rows.take 5),
          renderM ⟨df.rows.length, df.cols.length,
            v.syntaxOf (stripFences (cr.gen q)),
            v.forbiddenOf (stripFences (cr.gen q)),
            v.complexityOf (stripFences (cr.gen q))⟩),
        events := retryTrace q (stripFences (cr.gen q)) schema e
          (stripFences (cr.regen (stripFences (cr.gen q)) schema e)) } := by
  unfold runM
  rw [if_neg (by simp [h1]), if_neg (by simp [h2])]
  simp only [h3, h4]

theorem runM_retry_err {v : ValidatorI} {cr : Crews} {conn : Option Conn}
    {render : List (List String) → String} {renderM : MetricsData → String}
    {schema q : String} {e e2 : String}
    (h1 : pyStripS (pyLowerS (cr.intent q)) = "valid")
    (h2 : pyStartsWith (pyLowerS (cr.ddl (stripFences (cr.gen q)))) "error" = false)
    (h3 : execute_sql_query conn (stripFences (cr.gen q)) = Except.error e)
    (h4 : execute_sql_query conn (stripFences (cr.regen (stripFences (cr.gen q)) schema e))
        = Except.error e2) :
    runM v cr conn render renderM schema q =
      { result := Except.error e2,
        events := retryTrace q (stripFences (cr.gen q)) schema e
          (stripFences (cr.regen (stripFences (cr.gen q)) schema e)) } := by
  unfold runM
  rw [if_neg (by simp [h1]), if_neg (by simp [h2])]
  simp only [h3, h4]

end RunShape

section RunFixtures

/-- Trivial validator fixture for witnesses. -/
def wVal : ValidatorI := ⟨fun _ => true, fun _ => 0, fun _ => 0⟩

/-- Rendering fixtures for witnesses. -/
def wRender : List (List String) → String := fun _ => "preview"

/-- Metrics-rendering fixture for witnesses. -/
def wRenderM : MetricsData → String := fun _ => "metrics"

/-- Crew fixture whose intent check rejects the question. -/
def crInvalid : Crews :=
  ⟨fun _ => "Invalid", fun _ => "SELECT 1", fun _ => "OK", fun _ _ _ => ""⟩

/-- Crew fixture whose DDL gate responds with a non-exact error phrase. -/
def crBlocked : Crews :=
  ⟨fun _ => "Valid", fun _ => "DELETE FROM orders WHERE 1=1",
    fun _ => "Error: DDL tokens found", fun _ _ _ => ""⟩

/-- Crew fixture whose generated and regenerated SQL both fail to execute. -/
def crRetry : Crews :=
  ⟨fun _ => "Valid", fun _ => "BAD", fun _ => "OK", fun _ _ _ => "WORSE"⟩

/-- Crew fixture for the plain success path. -/
def crOk : Crews :=
  ⟨fun _ => "Valid", fun _ => "SELECT * FROM products", fun _ => "OK", fun _ _ _ => "SELECT 1"⟩

/-- Crew fixture whose generated SQL fails to execute but whose regenerated
SQL executes successfully (the retry-success path). -/
def crRetryOk : Crews :=
  ⟨fun _ => "Valid", fun _ => "BAD", fun _ => "OK", fun _ _ _ => "SELECT 2"⟩

/-- Connection fixture that rejects the fixtures' bad statements. -/
def connFail : Conn := fun sql =>
  if sql = "BAD" ∨ sql = "WORSE" then Except.error ("err " ++ sql)
  else Except.ok ⟨["a"], [["1"]]⟩

/-- Connection fixture returning seven rows. -/
def conn7 : Conn := fun _ =>
  Except.ok ⟨["a"], [["1"], ["2"], ["3"], ["4"], ["5"], ["6"], ["7"]]⟩

end RunFixtures

/-- C1: in every run whose first execution raises an error `e`, the
regeneration crew is invoked exactly once, receiving the original
(pre-regeneration) SQL, the schema description and the error text; the
regenerated SQL is executed exactly once more (the trace is exactly one
intent call, one generation, one validation, one DDL check, the failing
execution, the single regeneration and the second execution — no third
execution, no second regeneration), and if the second execution also fails
its error propagates to the caller as the run's result. -/
theorem c1_single_regeneration {v : ValidatorI} {cr : Crews} {conn : Option Conn}
    {render : List (List String) → String} {renderM : MetricsData → String}
    {schema q e : String}
    (h1 : pyStripS (pyLowerS (cr.intent q)) = "valid")
    (h2 : pyStartsWith (pyLowerS (cr.ddl (stripFences (cr.gen q)))) "error" = false)
    (h3 : execute_sql_query conn (stripFences (cr.gen q)) = Except.error e) :
    (runM v cr conn render renderM schema q).events =
      [RunEvent.intentCall q, RunEvent.genCall q,
        RunEvent.validateCall (stripFences (cr.gen q)),
        RunEvent.ddlCall (stripFences (cr.gen q)),
        RunEvent.execCall (stripFences (cr.gen q)),
        RunEvent.regenCall (stripFences (cr.gen q)) schema e,
        RunEvent.execCall (stripFences (cr.regen (stripFences (cr.gen q)) schema e))] ∧
    (∀ e2, execute_sql_query conn (stripFences (cr.regen (stripFences (cr.gen q)) schema e))
        = Except.error e2 →
      (runM v cr conn render renderM schema q).result = Except.error e2) := by
  cases h4 : execute_sql_query conn (stripFences (cr.regen (stripFences (cr.gen q)) schema e)) with
  | ok df =>
    rw [runM_retry_ok h1 h2 h3 h4]
    refine ⟨rfl, ?_⟩
    intro e2 h5
    exact absurd h5 (by simp)
  | error e2 =>
    rw [runM_retry_err h1 h2 h3 h4]
    refine ⟨rfl, ?_⟩
    intro e2' h5
    obtain rfl : e2 = e2' := by simpa using h5
    rfl

/-- C1 witness: both executions fail on the fixture connection, the trace is
exactly the seven expected events, and the second error is the run's result. -/
theorem c1_single_regeneration_witness :
    pyStripS (pyLowerS (crRetry.intent "q")) = "valid" ∧
    pyStartsWith (pyLowerS (crRetry.ddl (stripFences (crRetry.gen "q")))) "error" = false ∧
    execute_sql_query (some connFail) (stripFences (crRetry.gen "q")) =
      Except.error "err BAD" ∧
    ((runM wVal crRetry (some connFail) wRender wRenderM "schema" "q").events =
      [RunEvent.intentCall "q", RunEvent.genCall "q",
        RunEvent.validateCall (stripFences (crRetry.gen "q")),
        RunEvent.ddlCall (stripFences (crRetry.gen "q")),
        RunEvent.execCall (stripFences (crRetry.gen "q")),
        RunEvent.regenCall (stripFences (crRetry.gen "q")) "schema" "err BAD",
        RunEvent.execCall
          (stripFences (crRetry.regen (stripFences (crRetry.gen "q")) "schema" "err BAD"))] ∧
     (∀ e2, execute_sql_query (some connFail)
          (stripFences (crRetry.regen (stripFences (crRetry.gen "q")) "schema" "err BAD"))
        = Except.error e2 →
      (runM wVal crRetry (some connFail) wRender wRenderM "schema" "q").result =
        Except.error e2)) :=
  ⟨by decide, by decide, rfl, c1_single_regeneration (by decide) (by decide) rfl⟩

/-- C2: whenever the intent response, trimmed and lower-cased, is not the
exact string "valid", run returns ("Invalid query", "", "") and the trace
shows only the intent call: no SQL generation, no validator call, no DDL
gate, no database access, no regeneration. -/
theorem c2_intent_gate (v : ValidatorI) (cr : Crews) (conn : Option Conn)
    (render : List (List String) → String) (renderM : MetricsData → String)
    (schema q : String)
    (h : pyLowerS (pyStripS (cr.intent q)) ≠ "valid") :
    runM v cr conn render renderM schema q =
      { result := Except.ok ("Invalid query", "", ""),
        events := [RunEvent.intentCall q] } := by
  refine runM_invalid ?_
  rw [pyStripS_pyLowerS_comm]
  exact h

/-- C2 witness: the fixture whose intent crew answers "Invalid" returns the
("Invalid query", "", "") triple with a one-event trace. -/
theorem c2_intent_gate_witness :
    pyLowerS (pyStripS (crInvalid.intent "Tell me a joke")) ≠ "valid" ∧
    runM wVal crInvalid none wRender wRenderM "schema" "Tell me a joke" =
      { result := Except.ok ("Invalid query", "", ""),
        events := [RunEvent.intentCall "Tell me a joke"] } :=
  ⟨by decide, c2_intent_gate wVal crInvalid none wRender wRenderM "schema" "Tell me a joke"
    (by decide)⟩

/-- C3 counterexample: the DDL gate is not an exact-string match on "ERROR".
The gate response "Error: DDL tokens found" is different from "ERROR", yet
the run is blocked: it returns ("DDL operations not allowed.", "", "") and
never executes, refuting "blocks if and only if the response is exactly the
string ERROR". -/
theorem c3_counterexample :
    crBlocked.ddl (stripFences (crBlocked.gen "Show orders")) ≠ "ERROR" ∧
    (runM wVal crBlocked none wRender wRenderM "schema" "Show orders").result =
      Except.ok ("DDL operations not allowed.", "", "") ∧
    (∀ s, RunEvent.execCall s ∉
      (runM wVal crBlocked none wRender wRenderM "schema" "Show orders").events) := by
  refine ⟨by decide, rfl, ?_⟩
  intro s
  show RunEvent.execCall s ∉
    [RunEvent.intentCall "Show orders", RunEvent.genCall "Show orders",
      RunEvent.validateCall (stripFences (crBlocked.gen "Show orders")),
      RunEvent.ddlCall (stripFences (crBlocked.gen "Show orders"))]
  simp

/-- C3 (amended): for every run reaching the DDL gate (the intent check
passed), execution is blocked if and only if the gate response, lower-cased,
starts with "error"; when blocked, run returns
("DDL operations not allowed.", "", "") and the SQL is never executed. -/
theorem c3_ddl_gate (v : ValidatorI) (cr : Crews) (conn : Option Conn)
    (render : List (List String) → String) (renderM : MetricsData → String)
    (schema q : String)
    (hintent : pyStripS (pyLowerS (cr.intent q)) = "valid") :
    ((∀ s, RunEvent.execCall s ∉ (runM v cr conn render renderM schema q).events) ↔
      pyStartsWith (pyLowerS (cr.ddl (stripFences (cr.gen q)))) "error" = true) ∧
    (pyStartsWith (pyLowerS (cr.ddl (stripFences (cr.gen q)))) "error" = true →
      (runM v cr conn render renderM schema q).result =
        Except.ok ("DDL operations not allowed.", "", "")) := by
  by_cases hg : pyStartsWith (pyLowerS (cr.ddl (stripFences (cr.gen q)))) "error" = true
  · rw [runM_blocked hintent hg]
    refine ⟨⟨fun _ => hg, fun _ s => by simp⟩, fun _ => rfl⟩
  · have hg' : pyStartsWith (pyLowerS (cr.ddl (stripFences (cr.gen q)))) "error" = false := by
      rwa [Bool.not_eq_true] at hg
    have hmem : ∃ s, RunEvent.execCall s ∈ (runM v cr conn render renderM schema q).events := by
      cases h3 : execute_sql_query conn (stripFences (cr.gen q)) with
      | ok df =>
        rw [runM_exec_ok hintent hg' h3]
        exact ⟨stripFences (cr.gen q), by simp [execTrace]⟩
      | error e =>
        cases h4 : execute_sql_query conn
            (stripFences (cr.regen (stripFences (cr.gen q)) schema e)) with
        | ok df =>
          rw [runM_retry_ok hintent hg' h3 h4]
          exact ⟨stripFences (cr.gen q), by simp [retryTrace, execTrace]⟩
        | error e2 =>
          rw [runM_retry_err hintent hg' h3 h4]
          exact ⟨stripFences (cr.gen q), by simp [retryTrace, execTrace]⟩
    constructor
    · constructor
      · intro hall
        obtain ⟨s, hs⟩ := hmem
        exact absurd hs (hall s)
      · intro habs
        exact absurd habs hg
    · intro habs
      exact absurd habs hg

/-- C3 witness for the amended theorem: on the success-path fixture the gate
response "OK" does not start with "error", execution happens, and the gate
equivalence holds. -/
theorem c3_ddl_gate_witness :
    pyStripS (pyLowerS (crOk.intent "Show products")) = "valid" ∧
    (((∀ s, RunEvent.execCall s ∉
        (runM wVal crOk (some conn7) wRender wRenderM "schema" "Show products").events) ↔
      pyStartsWith (pyLowerS (crOk.ddl (stripFences (crOk.gen "Show products")))) "error" = true) ∧
    (pyStartsWith (pyLowerS (crOk.ddl (stripFences (crOk.gen "Show products")))) "error" = true →
      (runM wVal crOk (some conn7) wRender wRenderM "schema" "Show products").result =
        Except.ok ("DDL operations not allowed.", "", ""))) :=
  ⟨by decide, c3_ddl_gate wVal crOk (some conn7) wRender wRenderM "schema" "Show products"
    (by decide)⟩

/-- C4: the executor distinguishes the two failure modes: with no connection
(degraded state) every execution returns an empty result set without
raising; with a live connection whose cursor raises, the typed error is
propagated, and in particular the result is not a silent empty result. -/
theorem c4_execute_distinguishes (sql : String) (c : Conn) (e : String)
    (h : c sql = Except.error e) :
    execute_sql_query none sql = Except.ok ⟨[], []⟩ ∧
    execute_sql_query (some c) sql = Except.error e ∧
    execute_sql_query (some c) sql ≠ Except.ok ⟨[], []⟩ := by
  refine ⟨rfl, h, ?_⟩
  rw [show execute_sql_query (some c) sql = c sql from rfl, h]
  intro hcontra
  exact Except.noConfusion hcontra

/-- C4 witness: a connection that raises on an unknown column is
distinguished from the degraded no-connection state. -/
theorem c4_execute_distinguishes_witness :
    connFail "BAD" = Except.error "err BAD" ∧
    (execute_sql_query none "BAD" = Except.ok ⟨[], []⟩ ∧
     execute_sql_query (some connFail) "BAD" = Except.error "err BAD" ∧
     execute_sql_query (some connFail) "BAD" ≠ Except.ok ⟨[], []⟩) :=
  ⟨rfl, c4_execute_distinguishes "BAD" connFail "err BAD" rfl⟩

/-- C5: the ValidationReport never gates execution.  Two runs that differ
only in the validator produce the same event trace — in particular the same
execution attempts — and the same SQL and result-preview outputs; only the
argument of the metrics renderer can differ.  Consequently even a
syntactically invalid SQL string or one with a positive forbidden-token
count proceeds to the DDL gate and, if the gate passes, to execution. -/
theorem c5_validator_never_gates (v1 v2 : ValidatorI) (cr : Crews) (conn : Option Conn)
    (render : List (List String) → String) (renderM : MetricsData → String)
    (schema q : String) :
    (runM v1 cr conn render renderM schema q).events =
      (runM v2 cr conn render renderM schema q).events ∧
    Except.map (fun t => (t.1, t.2.1)) (runM v1 cr conn render renderM schema q).result =
      Except.map (fun t => (t.1, t.2.1)) (runM v2 cr conn render renderM schema q).result := by
  by_cases hI : pyStripS (pyLowerS (cr.intent q)) ≠ "valid"
  · rw [runM_invalid hI, runM_invalid hI]
    exact ⟨rfl, rfl⟩
  · rw [Ne, Decidable.not_not] at hI
    by_cases hg : pyStartsWith (pyLowerS (cr.ddl (stripFences (cr.gen q)))) "error" = true
    · rw [runM_blocked hI hg, runM_blocked hI hg]
      exact ⟨rfl, rfl⟩
    · have hg' : pyStartsWith (pyLowerS (cr.ddl (stripFences (cr.gen q)))) "error" = false := by
        rwa [Bool.not_eq_true] at hg
      cases h3 : execute_sql_query conn (stripFences (cr.gen q)) with
      | ok df =>
        rw [runM_exec_ok hI hg' h3, runM_exec_ok hI hg' h3]
        exact ⟨rfl, rfl⟩
      | error e =>
        cases h4 : execute_sql_query conn
            (stripFences (cr.regen (stripFences (cr.gen q)) schema e)) with
        | ok df =>
          rw [runM_retry_ok hI hg' h3 h4, runM_retry_ok hI hg' h3 h4]
          exact ⟨rfl, rfl⟩
        | error e2 =>
          rw [runM_retry_err hI hg' h3 h4, runM_retry_err hI hg' h3 h4]
          exact ⟨rfl, rfl⟩

/-- C10: on every successful run past the two gates — whether the first
execution succeeds, or the first execution fails and the regenerated SQL
succeeds — the preview handed to the renderer is the head (the first at
most five) of the materialized rows of the executed result set, while the
metrics renderer receives the full row count and column count of the
complete result set — so with more than five rows the preview shows fewer
rows than the metrics report.  (The validator fields of the metrics are
always those of the pre-regeneration SQL, faithful to the code.) -/
theorem c10_preview_head {v : ValidatorI} {cr : Crews} {conn : Option Conn}
    {render : List (List String) → String} {renderM : MetricsData → String}
    {schema q sql p m : String}
    (h1 : pyStripS (pyLowerS (cr.intent q)) = "valid")
    (h2 : pyStartsWith (pyLowerS (cr.ddl (stripFences (cr.gen q)))) "error" = false)
    (h3 : (runM v cr conn render renderM schema q).result = Except.ok (sql, p, m)) :
    ∃ df : DataFrame, execute_sql_query conn sql = Except.ok df ∧
      p = render (df.rows.take 5) ∧
      (df.rows.take 5).length ≤ 5 ∧
      m = renderM ⟨df.rows.length, df.cols.length,
        v.syntaxOf (stripFences (cr.gen q)),
        v.forbiddenOf (stripFences (cr.gen q)),
        v.complexityOf (stripFences (cr.gen q))⟩ := by
  cases hE : execute_sql_query conn (stripFences (cr.gen q)) with
  | ok df =>
    rw [runM_exec_ok h1 h2 hE] at h3
    simp only [Except.ok.injEq, Prod.mk.injEq] at h3
    obtain ⟨hsql, hp, hm⟩ := h3
    subst hsql
    refine ⟨df, hE, hp.symm, ?_, hm.symm⟩
    rw [List.length_take]
    omega
  | error e =>
    cases hE2 : execute_sql_query conn
        (stripFences (cr.regen (stripFences (cr.gen q)) schema e)) with
    | ok df =>
      rw [runM_retry_ok h1 h2 hE hE2] at h3
      simp only [Except.ok.injEq, Prod.mk.injEq] at h3
      obtain ⟨hsql, hp, hm⟩ := h3
      subst hsql
      refine ⟨df, hE2, hp.symm, ?_, hm.symm⟩
      rw [List.length_take]
      omega
    | error e2 =>
      rw [runM_retry_err h1 h2 hE hE2] at h3
      exact absurd h3 (by simp)

/-- C10 witness: a run on the retry-success path — the generated SQL "BAD"
fails to execute, the regenerated SQL "SELECT 2" succeeds with a one-row
result set — applied to the theorem at that concrete run. -/
theorem c10_preview_head_witness :
    pyStripS (pyLowerS (crRetryOk.intent "q")) = "valid" ∧
    pyStartsWith (pyLowerS (crRetryOk.ddl (stripFences (crRetryOk.gen "q")))) "error" = false ∧
    execute_sql_query (some connFail) (stripFences (crRetryOk.gen "q")) =
      Except.error "err BAD" ∧
    (runM wVal crRetryOk (some connFail) wRender wRenderM "schema" "q").result =
      Except.ok ("SELECT 2", "preview", "metrics") ∧
    (∃ df : DataFrame, execute_sql_query (some connFail) "SELECT 2" = Except.ok df ∧
      "preview" = wRender (df.rows.take 5) ∧
      (df.rows.take 5).length ≤ 5 ∧
      "metrics" = wRenderM ⟨df.rows.length, df.cols.length,
        wVal.syntaxOf (stripFences (crRetryOk.gen "q")),
        wVal.forbiddenOf (stripFences (crRetryOk.gen "q")),
        wVal.complexityOf (stripFences (crRetryOk.gen "q"))⟩) :=
  ⟨by decide, by decide, rfl, rfl,
    @c10_preview_head wVal crRetryOk (some connFail) wRender wRenderM "schema" "q"
      "SELECT 2" "preview" "metrics" (by decide) (by decide) rfl⟩

section SequenceMatcherModel

/-- Number of occurrences of `c` in `b` (the length of the `b2j[c]` index
list before the autojunk purge). -/
def countElt (b : List Char) (c : Char) : Nat :=
  (b.filter (fun d => d == c)).length

/-- The autojunk popularity test of `SequenceMatcher.__chain_b`: when
`len(b) >= 200`, elements occurring more than `len(b) // 100 + 1` times are
purged from `b2j`.  (`compute_similarity` passes `isjunk=None`, so the junk
set proper is empty and only the popularity purge applies.) -/
def isPopular (b : List Char) (c : Char) : Bool :=
  decide (200 ≤ b.length) && decide (b.length / 100 + 1 < countElt b c)

/-- `b2j[c]`: the ascending list of positions of `c` in `b`, empty for
purged popular elements (and for elements not occurring in `b`). -/
def b2j (b : List Char) (c : Char) : List Nat :=
  if isPopular b c then []
  else (List.range b.length).filter (fun j => b.getD j ' ' == c)

/-- One step of the inner loop of the `find_longest_match` dynamic program:
process `j ∈ b2j[a[i]]`, computing `k = j2len.get(j-1, 0) + 1` from the
previous row `j2old`, writing `k` into the new row, and improving the best
match on strict improvement only. -/
def dpInner (j2old : Nat → Nat) (i : Nat)
    (acc : (Nat → Nat) × Nat × Nat × Nat) (j : Nat) :
    (Nat → Nat) × Nat × Nat × Nat :=
  if acc.2.2.2 < (if j = 0 then 0 else j2old (j - 1)) + 1 then
    (fun m => if m = j then (if j = 0 then 0 else j2old (j - 1)) + 1 else acc.1 m,
      i + 1 - ((if j = 0 then 0 else j2old (j - 1)) + 1),
      j + 1 - ((if j = 0 then 0 else j2old (j - 1)) + 1),
      (if j = 0 then 0 else j2old (j - 1)) + 1)
  else
    (fun m => if m = j then (if j = 0 then 0 else j2old (j - 1)) + 1 else acc.1 m,
      acc.2.1, acc.2.2.1, acc.2.2.2)

/-- The outer loop of the `find_longest_match` dynamic program: run `cnt`
rows starting at row `i`, threading the `j2len` row and the best match.
The filter on `js` models the `continue`/`break` range guards of the inner
loop. -/
def dpRounds (a b : List Char) (blo bhi : Nat) :
    Nat → Nat → (Nat → Nat) → Nat × Nat × Nat → (Nat → Nat) × (Nat × Nat × Nat)
  | _, 0, j2, best => (j2, best)
  | i, cnt + 1, j2, best =>
    dpRounds a b blo bhi (i + 1) cnt
      (((b2j b (a.getD i ' ')).filter (fun j => decide (blo ≤ j) && decide (j < bhi))).foldl
        (dpInner j2 i) ((fun _ => 0), best)).1
      (((b2j b (a.getD i ' ')).filter (fun j => decide (blo ≤ j) && decide (j < bhi))).foldl
        (dpInner j2 i) ((fun _ => 0), best)).2

/-- The dynamic-program part of `find_longest_match`, started from
`besti, bestj, bestsize = alo, blo, 0` with an empty `j2len`. -/
def flmDP (a b : List Char) (alo ahi blo bhi : Nat) : Nat × Nat × Nat :=
  (dpRounds a b blo bhi alo (ahi - alo) (fun _ => 0) (alo, blo, 0)).2

/-- The backward non-junk extension loop of `find_longest_match` (the junk
test `isbjunk` is constantly false because the junk set is empty).  The
`while besti > alo` loop decreases `besti` by one per iteration, so it is
written as structural recursion on `besti`; the `besti = 0` case is the
loop guard `alo < besti` failing. -/
def extBack (a b : List Char) (alo blo : Nat) : Nat → Nat → Nat → Nat × Nat × Nat
  | 0, bestj, bestsize => (0, bestj, bestsize)
  | besti + 1, bestj, bestsize =>
    if alo < besti + 1 ∧ blo < bestj ∧
        a.getD besti ' ' == b.getD (bestj - 1) ' ' then
      extBack a b alo blo besti (bestj - 1) (bestsize + 1)
    else (besti + 1, bestj, bestsize)

/-- The forward non-junk extension loop of `find_longest_match`, as fuel
recursion: each iteration requires `besti + bestsize < ahi`, so any fuel of
at least `ahi` iterations (the caller `flm` passes `ahi`) makes the fuel
pattern unreachable and the recursion equivalent to the `while` loop. -/
def extFwd (a b : List Char) (ahi bhi : Nat) : Nat → Nat → Nat → Nat → Nat
  | 0, _, _, bestsize => bestsize
  | fuel + 1, besti, bestj, bestsize =>
    if besti + bestsize < ahi ∧ bestj + bestsize < bhi ∧
        a.getD (besti + bestsize) ' ' == b.getD (bestj + bestsize) ' ' then
      extFwd a b ahi bhi fuel besti bestj (bestsize + 1)
    else bestsize

/-- `find_longest_match(alo, ahi, blo, bhi)` of `SequenceMatcher(None, a, b)`:
the dynamic program followed by the two non-junk extension loops (the two
junk extension loops never fire because the junk set is empty). -/
def flm (a b : List Char) (alo ahi blo bhi : Nat) : Nat × Nat × Nat :=
  match extBack a b alo blo (flmDP a b alo ahi blo bhi).1
      (flmDP a b alo ahi blo bhi).2.1 (flmDP a b alo ahi blo bhi).2.2 with
  | (bi2, bj2, bs2) => (bi2, bj2, extFwd a b ahi bhi ahi bi2 bj2 bs2)

/-- Total matched size over the matching-block recursion of
`get_matching_blocks` (the LIFO queue order does not affect the total, and
the final sort-and-merge of adjacent blocks preserves it).  `fuel` bounds
the recursion depth; `ratioQ` supplies a sufficient amount, since every
recursive call strictly shrinks `(ahi - alo) + (bhi - blo)`. -/
def totalM (a b : List Char) : Nat → Nat → Nat → Nat → Nat → Nat
  | 0, _, _, _, _ => 0
  | fuel + 1, alo, ahi, blo, bhi =>
    if (flm a b alo ahi blo bhi).2.2 = 0 then 0
    else (flm a b alo ahi blo bhi).2.2 +
      (if alo < (flm a b alo ahi blo bhi).1 ∧ blo < (flm a b alo ahi blo bhi).2.1 then
        totalM a b fuel alo (flm a b alo ahi blo bhi).1 blo (flm a b alo ahi blo bhi).2.1
      else 0) +
      (if (flm a b alo ahi blo bhi).1 + (flm a b alo ahi blo bhi).2.2 < ahi ∧
          (flm a b alo ahi blo bhi).2.1 + (flm a b alo ahi blo bhi).2.2 < bhi then
        totalM a b fuel ((flm a b alo ahi blo bhi).1 + (flm a b alo ahi blo bhi).2.2) ahi
          ((flm a b alo ahi blo bhi).2.1 + (flm a b alo ahi blo bhi).2.2) bhi
      else 0)

/-- `SequenceMatcher.ratio()` in exact rational arithmetic:
`2.0 * matches / (len(a) + len(b))`, and `1.0` when both are empty. -/
def ratioQ (a b : List Char) : ℚ :=
  if a.length + b.length = 0 then 1
  else (2 * (totalM a b (a.length + b.length + 1) 0 a.length 0 b.length) : ℚ) /
    ((a.length + b.length : Nat) : ℚ)

/-- `Validator.compute_similarity`: `SequenceMatcher(None, a, b).ratio()`,
with the float value represented exactly in `ℚ`. -/
def compute_similarity (a b : String) : ℚ :=
  ratioQ a.data b.data

end SequenceMatcherModel

section SequenceMatcherBounds

theorem totalM_succ (a b : List Char) (fuel alo ahi blo bhi : Nat) :
    totalM a b (fuel + 1) alo ahi blo bhi =
      (if (flm a b alo ahi blo bhi).2.2 = 0 then 0
      else (flm a b alo ahi blo bhi).2.2 +
        (if alo < (flm a b alo ahi blo bhi).1 ∧ blo < (flm a b alo ahi blo bhi).2.1 then
          totalM a b fuel alo (flm a b alo ahi blo bhi).1 blo (flm a b alo ahi blo bhi).2.1
        else 0) +
        (if (flm a b alo ahi blo bhi).1 + (flm a b alo ahi blo bhi).2.2 < ahi ∧
            (flm a b alo ahi blo bhi).2.1 + (flm a b alo ahi blo bhi).2.2 < bhi then
          totalM a b fuel ((flm a b alo ahi blo bhi).1 + (flm a b alo ahi blo bhi).2.2) ahi
            ((flm a b alo ahi blo bhi).2.1 + (flm a b alo ahi blo bhi).2.2) bhi
        else 0)) := rfl

theorem extBack_spec (a b : List Char) (alo blo : Nat) (besti : Nat) :
    ∀ bestj bestsize, alo ≤ besti → blo ≤ bestj →
      alo ≤ (extBack a b alo blo besti bestj bestsize).1 ∧
      blo ≤ (extBack a b alo blo besti bestj bestsize).2.1 ∧
      (extBack a b alo blo besti bestj bestsize).1 +
        (extBack a b alo blo besti bestj bestsize).2.2 = besti + bestsize ∧
      (extBack a b alo blo besti bestj bestsize).2.1 +
        (extBack a b alo blo besti bestj bestsize).2.2 = bestj + bestsize := by
  induction besti with
  | zero =>
    intro bestj bestsize h1 h2
    exact ⟨h1, h2, rfl, rfl⟩
  | succ besti ih =>
    intro bestj bestsize h1 h2
    simp only [extBack]
    split
    · rename_i h
      obtain ⟨ha, hb, -⟩ := h
      have hrec := ih (bestj - 1) (bestsize + 1) (by omega) (by omega)
      obtain ⟨hr1, hr2, hr3, hr4⟩ := hrec
      exact ⟨hr1, hr2, by omega, by omega⟩
    · exact ⟨h1, h2, rfl, rfl⟩

theorem extFwd_spec (a b : List Char) (ahi bhi : Nat) :
    ∀ (fuel besti bestj bestsize : Nat),
      besti + bestsize ≤ ahi → bestj + bestsize ≤ bhi →
      bestsize ≤ extFwd a b ahi bhi fuel besti bestj bestsize ∧
      besti + extFwd a b ahi bhi fuel besti bestj bestsize ≤ ahi ∧
      bestj + extFwd a b ahi bhi fuel besti bestj bestsize ≤ bhi := by
  intro fuel
  induction fuel with
  | zero =>
    intro besti bestj bestsize h1 h2
    exact ⟨Nat.le_refl _, h1, h2⟩
  | succ fuel ih =>
    intro besti bestj bestsize h1 h2
    simp only [extFwd]
    split
    · rename_i h
      obtain ⟨ha, hb, -⟩ := h
      have hrec := ih besti bestj (bestsize + 1) (by omega) (by omega)
      obtain ⟨hr1, hr2, hr3⟩ := hrec
      exact ⟨by omega, hr2, hr3⟩
    · exact ⟨Nat.le_refl _, h1, h2⟩

end SequenceMatcherBounds

section SequenceMatcherBounds2

theorem dpInner_step_bounds (j2old : Nat → Nat) (i alo blo A bhi : Nat) (j : Nat)
    (hi : alo ≤ i) (hiA : i < A)
    (hrow : ∀ m, 1 ≤ j2old m → alo + j2old m ≤ i ∧ blo + j2old m ≤ m + 1)
    (hj : blo ≤ j ∧ j < bhi)
    (acc : (Nat → Nat) × Nat × Nat × Nat)
    (hacc : (∀ m, 1 ≤ acc.1 m → alo + acc.1 m ≤ i + 1 ∧ blo + acc.1 m ≤ m + 1) ∧
      alo ≤ acc.2.1 ∧ blo ≤ acc.2.2.1 ∧ acc.2.1 + acc.2.2.2 ≤ A ∧
      acc.2.2.1 + acc.2.2.2 ≤ bhi) :
    (∀ m, 1 ≤ (dpInner j2old i acc j).1 m →
        alo + (dpInner j2old i acc j).1 m ≤ i + 1 ∧
        blo + (dpInner j2old i acc j).1 m ≤ m + 1) ∧
      alo ≤ (dpInner j2old i acc j).2.1 ∧ blo ≤ (dpInner j2old i acc j).2.2.1 ∧
      (dpInner j2old i acc j).2.1 + (dpInner j2old i acc j).2.2.2 ≤ A ∧
      (dpInner j2old i acc j).2.2.1 + (dpInner j2old i acc j).2.2.2 ≤ bhi := by
  obtain ⟨hrowa, hb1, hb2, hb3, hb4⟩ := hacc
  have hK1 : alo + ((if j = 0 then 0 else j2old (j - 1)) + 1) ≤ i + 1 := by
    by_cases hj0 : j = 0
    · rw [if_pos hj0]
      omega
    · rw [if_neg hj0]
      by_cases hp : 1 ≤ j2old (j - 1)
      · have := hrow (j - 1) hp
        omega
      · omega
  have hK2 : blo + ((if j = 0 then 0 else j2old (j - 1)) + 1) ≤ j + 1 := by
    by_cases hj0 : j = 0
    · rw [if_pos hj0]
      omega
    · rw [if_neg hj0]
      by_cases hp : 1 ≤ j2old (j - 1)
      · have := hrow (j - 1) hp
        omega
      · omega
  have hrowchar : ∀ m, (dpInner j2old i acc j).1 m =
      if m = j then (if j = 0 then 0 else j2old (j - 1)) + 1 else acc.1 m := by
    intro m
    by_cases hc : acc.2.2.2 < (if j = 0 then 0 else j2old (j - 1)) + 1
    · unfold dpInner
      rw [if_pos hc]
    · unfold dpInner
      rw [if_neg hc]
  have hrownew : ∀ m, 1 ≤ (dpInner j2old i acc j).1 m →
      alo + (dpInner j2old i acc j).1 m ≤ i + 1 ∧
      blo + (dpInner j2old i acc j).1 m ≤ m + 1 := by
    intro m
    rw [hrowchar m]
    by_cases hmj : m = j
    · rw [if_pos hmj]
      subst hmj
      intro _
      exact ⟨hK1, hK2⟩
    · rw [if_neg hmj]
      exact hrowa m
  by_cases hup : acc.2.2.2 < (if j = 0 then 0 else j2old (j - 1)) + 1
  · have e1 : (dpInner j2old i acc j).2.1 =
        i + 1 - ((if j = 0 then 0 else j2old (j - 1)) + 1) := by
      unfold dpInner
      rw [if_pos hup]
    have e2 : (dpInner j2old i acc j).2.2.1 =
        j + 1 - ((if j = 0 then 0 else j2old (j - 1)) + 1) := by
      unfold dpInner
      rw [if_pos hup]
    have e3 : (dpInner j2old i acc j).2.2.2 =
        (if j = 0 then 0 else j2old (j - 1)) + 1 := by
      unfold dpInner
      rw [if_pos hup]
    refine ⟨hrownew, ?_, ?_, ?_, ?_⟩
    · rw [e1]
      omega
    · rw [e2]
      omega
    · rw [e1, e3]
      omega
    · rw [e2, e3]
      omega
  · have e1 : (dpInner j2old i acc j).2.1 = acc.2.1 := by
      unfold dpInner
      rw [if_neg hup]
    have e2 : (dpInner j2old i acc j).2.2.1 = acc.2.2.1 := by
      unfold dpInner
      rw [if_neg hup]
    have e3 : (dpInner j2old i acc j).2.2.2 = acc.2.2.2 := by
      unfold dpInner
      rw [if_neg hup]
    refine ⟨hrownew, ?_, ?_, ?_, ?_⟩
    · rw [e1]
      exact hb1
    · rw [e2]
      exact hb2
    · rw [e1, e3]
      exact hb3
    · rw [e2, e3]
      exact hb4

end SequenceMatcherBounds2

section SequenceMatcherBounds3

theorem dpInner_fold_bounds (j2old : Nat → Nat) (i alo blo A bhi : Nat)
    (hi : alo ≤ i) (hiA : i < A)
    (hrow : ∀ m, 1 ≤ j2old m → alo + j2old m ≤ i ∧ blo + j2old m ≤ m + 1) :
    ∀ (js : List Nat), (∀ j ∈ js, blo ≤ j ∧ j < bhi) →
    ∀ (acc : (Nat → Nat) × Nat × Nat × Nat),
      (∀ m, 1 ≤ acc.1 m → alo + acc.1 m ≤ i + 1 ∧ blo + acc.1 m ≤ m + 1) →
      alo ≤ acc.2.1 → blo ≤ acc.2.2.1 → acc.2.1 + acc.2.2.2 ≤ A →
      acc.2.2.1 + acc.2.2.2 ≤ bhi →
      ((∀ m, 1 ≤ (js.foldl (dpInner j2old i) acc).1 m →
          alo + (js.foldl (dpInner j2old i) acc).1 m ≤ i + 1 ∧
          blo + (js.foldl (dpInner j2old i) acc).1 m ≤ m + 1) ∧
        alo ≤ (js.foldl (dpInner j2old i) acc).2.1 ∧
        blo ≤ (js.foldl (dpInner j2old i) acc).2.2.1 ∧
        (js.foldl (dpInner j2old i) acc).2.1 +
          (js.foldl (dpInner j2old i) acc).2.2.2 ≤ A ∧
        (js.foldl (dpInner j2old i) acc).2.2.1 +
          (js.foldl (dpInner j2old i) acc).2.2.2 ≤ bhi) := by
  intro js
  induction js with
  | nil =>
    intro _ acc h1 h2 h3 h4 h5
    exact ⟨h1, h2, h3, h4, h5⟩
  | cons j rest ih =>
    intro hmem acc h1 h2 h3 h4 h5
    have hj := hmem j (List.mem_cons_self j rest)
    have hstep := dpInner_step_bounds j2old i alo blo A bhi j hi hiA hrow hj acc
      ⟨h1, h2, h3, h4, h5⟩
    rw [List.foldl_cons]
    exact ih (fun x hx => hmem x (List.mem_cons_of_mem j hx)) _
      hstep.1 hstep.2.1 hstep.2.2.1 hstep.2.2.2.1 hstep.2.2.2.2

theorem dpRounds_inv (a b : List Char) (alo blo bhi : Nat) :
    ∀ (cnt i : Nat) (j2 : Nat → Nat) (best : Nat × Nat × Nat),
      alo ≤ i →
      (∀ m, 1 ≤ j2 m → alo + j2 m ≤ i ∧ blo + j2 m ≤ m + 1) →
      alo ≤ best.1 → blo ≤ best.2.1 → best.1 + best.2.2 ≤ i + cnt →
      best.2.1 + best.2.2 ≤ bhi →
      (alo ≤ (dpRounds a b blo bhi i cnt j2 best).2.1 ∧
        blo ≤ (dpRounds a b blo bhi i cnt j2 best).2.2.1 ∧
        (dpRounds a b blo bhi i cnt j2 best).2.1 +
          (dpRounds a b blo bhi i cnt j2 best).2.2.2 ≤ i + cnt ∧
        (dpRounds a b blo bhi i cnt j2 best).2.2.1 +
          (dpRounds a b blo bhi i cnt j2 best).2.2.2 ≤ bhi) := by
  intro cnt
  induction cnt with
  | zero =>
    intro i j2 best h1 h2 h3 h4 h5 h6
    exact ⟨h3, h4, h5, h6⟩
  | succ cnt ih =>
    intro i j2 best h1 h2 h3 h4 h5 h6
    simp only [dpRounds]
    have hmem : ∀ j ∈ (b2j b (a.getD i ' ')).filter
        (fun j => decide (blo ≤ j) && decide (j < bhi)), blo ≤ j ∧ j < bhi := by
      intro j hjf
      have hp := List.of_mem_filter hjf
      simp only [Bool.and_eq_true, decide_eq_true_eq] at hp
      exact hp
    have hfold := dpInner_fold_bounds j2 i alo blo (i + (cnt + 1)) bhi h1 (by omega) h2
      ((b2j b (a.getD i ' ')).filter (fun j => decide (blo ≤ j) && decide (j < bhi))) hmem
      ((fun _ => 0), best)
      (by intro m hm; exact absurd hm (by simp)) h3 h4 h5 h6
    have hrec := ih (i + 1)
      (((b2j b (a.getD i ' ')).filter (fun j => decide (blo ≤ j) && decide (j < bhi))).foldl
        (dpInner j2 i) ((fun _ => 0), best)).1
      (((b2j b (a.getD i ' ')).filter (fun j => decide (blo ≤ j) && decide (j < bhi))).foldl
        (dpInner j2 i) ((fun _ => 0), best)).2
      (by omega) hfold.1 hfold.2.1 hfold.2.2.1
      (by have := hfold.2.2.2.1; omega) hfold.2.2.2.2
    refine ⟨hrec.1, hrec.2.1, by have := hrec.2.2.1; omega, hrec.2.2.2⟩

theorem flmDP_bounds (a b : List Char) (alo ahi blo bhi : Nat)
    (hab : alo ≤ ahi) (hbb : blo ≤ bhi) :
    alo ≤ (flmDP a b alo ahi blo bhi).1 ∧ blo ≤ (flmDP a b alo ahi blo bhi).2.1 ∧
    (flmDP a b alo ahi blo bhi).1 + (flmDP a b alo ahi blo bhi).2.2 ≤ ahi ∧
    (flmDP a b alo ahi blo bhi).2.1 + (flmDP a b alo ahi blo bhi).2.2 ≤ bhi := by
  unfold flmDP
  have h := dpRounds_inv a b alo blo bhi (ahi - alo) alo (fun _ => 0) (alo, blo, 0)
    (Nat.le_refl _) (by intro m hm; exact absurd hm (by simp))
    (Nat.le_refl _) (Nat.le_refl _)
    (by show alo + 0 ≤ alo + (ahi - alo); omega)
    (by show blo + 0 ≤ bhi; omega)
  refine ⟨h.1, h.2.1, ?_, h.2.2.2⟩
  have := h.2.2.1
  omega

theorem flm_bounds (a b : List Char) (alo ahi blo bhi : Nat)
    (hab : alo ≤ ahi) (hbb : blo ≤ bhi) :
    alo ≤ (flm a b alo ahi blo bhi).1 ∧ blo ≤ (flm a b alo ahi blo bhi).2.1 ∧
    (flm a b alo ahi blo bhi).1 + (flm a b alo ahi blo bhi).2.2 ≤ ahi ∧
    (flm a b alo ahi blo bhi).2.1 + (flm a b alo ahi blo bhi).2.2 ≤ bhi := by
  obtain ⟨h1, h2, h3, h4⟩ := flmDP_bounds a b alo ahi blo bhi hab hbb
  have hb := extBack_spec a b alo blo (flmDP a b alo ahi blo bhi).1
    (flmDP a b alo ahi blo bhi).2.1 (flmDP a b alo ahi blo bhi).2.2 h1 h2
  rcases hE : extBack a b alo blo (flmDP a b alo ahi blo bhi).1
      (flmDP a b alo ahi blo bhi).2.1 (flmDP a b alo ahi blo bhi).2.2 with ⟨bi2, bj2, bs2⟩
  rw [hE] at hb
  simp only at hb
  obtain ⟨hq1, hq2, hq3, hq4⟩ := hb
  have hflm : flm a b alo ahi blo bhi = (bi2, bj2, extFwd a b ahi bhi ahi bi2 bj2 bs2) := by
    unfold flm
    rw [hE]
  have hf := extFwd_spec a b ahi bhi ahi bi2 bj2 bs2 (by omega) (by omega)
  rw [hflm]
  exact ⟨hq1, hq2, hf.2.1, hf.2.2⟩

theorem totalM_le (a b : List Char) :
    ∀ (fuel alo ahi blo bhi : Nat), alo ≤ ahi → blo ≤ bhi →
      totalM a b fuel alo ahi blo bhi ≤ ahi - alo ∧
      totalM a b fuel alo ahi blo bhi ≤ bhi - blo := by
  intro fuel
  induction fuel with
  | zero =>
    intro alo ahi blo bhi _ _
    exact ⟨Nat.zero_le _, Nat.zero_le _⟩
  | succ fuel ih =>
    intro alo ahi blo bhi hab hbb
    rw [totalM_succ]
    by_cases h0 : (flm a b alo ahi blo bhi).2.2 = 0
    · rw [if_pos h0]
      exact ⟨Nat.zero_le _, Nat.zero_le _⟩
    · rw [if_neg h0]
      obtain ⟨hb1, hb2, hb3, hb4⟩ := flm_bounds a b alo ahi blo bhi hab hbb
      by_cases hcL : alo < (flm a b alo ahi blo bhi).1 ∧ blo < (flm a b alo ahi blo bhi).2.1
      · rw [if_pos hcL]
        obtain ⟨hL1, hL2⟩ := ih alo (flm a b alo ahi blo bhi).1 blo
          (flm a b alo ahi blo bhi).2.1 (by omega) (by omega)
        by_cases hcR : (flm a b alo ahi blo bhi).1 + (flm a b alo ahi blo bhi).2.2 < ahi ∧
            (flm a b alo ahi blo bhi).2.1 + (flm a b alo ahi blo bhi).2.2 < bhi
        · rw [if_pos hcR]
          obtain ⟨hR1, hR2⟩ := ih ((flm a b alo ahi blo bhi).1 + (flm a b alo ahi blo bhi).2.2)
            ahi ((flm a b alo ahi blo bhi).2.1 + (flm a b alo ahi blo bhi).2.2) bhi
            (by omega) (by omega)
          constructor <;> omega
        · rw [if_neg hcR]
          constructor <;> omega
      · rw [if_neg hcL]
        by_cases hcR : (flm a b alo ahi blo bhi).1 + (flm a b alo ahi blo bhi).2.2 < ahi ∧
            (flm a b alo ahi blo bhi).2.1 + (flm a b alo ahi blo bhi).2.2 < bhi
        · rw [if_pos hcR]
          obtain ⟨hR1, hR2⟩ := ih ((flm a b alo ahi blo bhi).1 + (flm a b alo ahi blo bhi).2.2)
            ahi ((flm a b alo ahi blo bhi).2.1 + (flm a b alo ahi blo bhi).2.2) bhi
            (by omega) (by omega)
          constructor <;> omega
        · rw [if_neg hcR]
          constructor <;> omega

theorem ratioQ_bounds (a b : List Char) : 0 ≤ ratioQ a b ∧ ratioQ a b ≤ 1 := by
  unfold ratioQ
  by_cases hT : a.length + b.length = 0
  · rw [if_pos hT]
    norm_num
  · rw [if_neg hT]
    obtain ⟨h1, h2⟩ := totalM_le a b (a.length + b.length + 1) 0 a.length 0 b.length
      (Nat.zero_le _) (Nat.zero_le _)
    have hpos : (0 : ℚ) < ((a.length + b.length : Nat) : ℚ) := by
      exact_mod_cast Nat.pos_of_ne_zero hT
    constructor
    · apply div_nonneg
      · positivity
      · exact le_of_lt hpos
    · rw [div_le_one hpos]
      have h3 : 2 * totalM a b (a.length + b.length + 1) 0 a.length 0 b.length ≤
          a.length + b.length := by omega
      exact_mod_cast h3

end SequenceMatcherBounds3

section SequenceMatcherRefl

/-- `chainK l i j`: the length of the diagonal chain of matches ending at
`(i, j)` in the `find_longest_match` dynamic program run on two copies of
`l`, i.e. the value `j2len[j]` holds after processing row `i` (taking the
autojunk purge of `b2j` into account). -/
def chainK (l : List Char) : Nat → Nat → Nat
  | 0, j => if j ∈ b2j l (l.getD 0 ' ') then 1 else 0
  | i + 1, 0 => if 0 ∈ b2j l (l.getD (i + 1) ' ') then 1 else 0
  | i + 1, j + 1 => if j + 1 ∈ b2j l (l.getD (i + 1) ' ') then chainK l i j + 1 else 0

/-- The `j2len` row as a function of the number of processed rows: before
any round it is identically `0`, after row `i` it is `chainK l i`. -/
def rowVal (l : List Char) : Nat → Nat → Nat
  | 0, _ => 0
  | i + 1, j => chainK l i j

theorem chainK_zero_left (l : List Char) (j : Nat) :
    chainK l 0 j = if j ∈ b2j l (l.getD 0 ' ') then 1 else 0 := by
  simp only [chainK]

theorem chainK_succ_zero (l : List Char) (i : Nat) :
    chainK l (i + 1) 0 = if 0 ∈ b2j l (l.getD (i + 1) ' ') then 1 else 0 := by
  simp only [chainK]

theorem chainK_succ_succ (l : List Char) (i j : Nat) :
    chainK l (i + 1) (j + 1) =
      if j + 1 ∈ b2j l (l.getD (i + 1) ' ') then chainK l i j + 1 else 0 := by
  simp only [chainK]

theorem rowVal_zero (l : List Char) (m : Nat) : rowVal l 0 m = 0 := rfl

theorem rowVal_succ (l : List Char) (i m : Nat) : rowVal l (i + 1) m = chainK l i m := rfl

theorem mem_b2j_iff {b : List Char} {c : Char} {j : Nat} :
    j ∈ b2j b c ↔ (isPopular b c = false ∧ j < b.length ∧ b.getD j ' ' = c) := by
  unfold b2j
  by_cases hp : isPopular b c
  · rw [if_pos hp]
    simp [hp]
  · rw [if_neg hp]
    simp only [Bool.not_eq_true] at hp
    simp [List.mem_filter, List.mem_range, hp]

theorem b2j_self_mem {l : List Char} {i j : Nat} (h : j ∈ b2j l (l.getD i ' '))
    (hi : i < l.length) : i ∈ b2j l (l.getD i ' ') := by
  rw [mem_b2j_iff] at h ⊢
  exact ⟨h.1, hi, rfl⟩

theorem b2j_diag_mem {l : List Char} {i j : Nat} (h : j ∈ b2j l (l.getD i ' ')) :
    j ∈ b2j l (l.getD j ' ') := by
  rw [mem_b2j_iff] at h ⊢
  obtain ⟨hp, hj, he⟩ := h
  rw [he]
  exact ⟨hp, hj, rfl⟩

theorem chainK_diag_pos {l : List Char} {j : Nat} (h : j ∈ b2j l (l.getD j ' ')) :
    1 ≤ chainK l j j := by
  cases j with
  | zero =>
    rw [chainK_zero_left, if_pos h]
  | succ j' =>
    rw [chainK_succ_succ, if_pos h]
    omega

theorem chainK_not_mem {l : List Char} {i j : Nat} (h : j ∉ b2j l (l.getD i ' ')) :
    chainK l i j = 0 := by
  cases i with
  | zero => rw [chainK_zero_left, if_neg h]
  | succ i' =>
    cases j with
    | zero => rw [chainK_succ_zero, if_neg h]
    | succ j' => rw [chainK_succ_succ, if_neg h]

theorem chainK_le_diag_right (l : List Char) :
    ∀ i j, chainK l i j ≤ chainK l j j := by
  intro i
  induction i with
  | zero =>
    intro j
    by_cases h : j ∈ b2j l (l.getD 0 ' ')
    · have hd : j ∈ b2j l (l.getD j ' ') := b2j_diag_mem h
      have hpos : 1 ≤ chainK l j j := chainK_diag_pos hd
      rw [chainK_zero_left, if_pos h]
      omega
    · rw [chainK_zero_left, if_neg h]
      omega
  | succ i ih =>
    intro j
    cases j with
    | zero =>
      by_cases h : (0 : Nat) ∈ b2j l (l.getD (i + 1) ' ')
      · have hd : (0 : Nat) ∈ b2j l (l.getD 0 ' ') := b2j_diag_mem h
        have hpos : 1 ≤ chainK l 0 0 := chainK_diag_pos hd
        rw [chainK_succ_zero, if_pos h]
        omega
      · rw [chainK_succ_zero, if_neg h]
        omega
    | succ j' =>
      by_cases h : (j' + 1) ∈ b2j l (l.getD (i + 1) ' ')
      · have hd : (j' + 1) ∈ b2j l (l.getD (j' + 1) ' ') := b2j_diag_mem h
        rw [chainK_succ_succ l i j', if_pos h, chainK_succ_succ l j' j', if_pos hd]
        have := ih j'
        omega
      · rw [chainK_succ_succ l i j', if_neg h]
        omega

theorem chainK_le_diag_left (l : List Char) :
    ∀ i j, i < l.length → chainK l i j ≤ chainK l i i := by
  intro i
  induction i with
  | zero =>
    intro j hin
    by_cases h : j ∈ b2j l (l.getD 0 ' ')
    · have h0 : (0 : Nat) ∈ b2j l (l.getD 0 ' ') := b2j_self_mem h hin
      rw [chainK_zero_left l j, if_pos h, chainK_zero_left l 0, if_pos h0]
    · rw [chainK_zero_left l j, if_neg h]
      omega
  | succ i ih =>
    intro j hin
    cases j with
    | zero =>
      by_cases h : (0 : Nat) ∈ b2j l (l.getD (i + 1) ' ')
      · have hii : (i + 1) ∈ b2j l (l.getD (i + 1) ' ') := b2j_self_mem h hin
        rw [chainK_succ_zero, if_pos h, chainK_succ_succ, if_pos hii]
        omega
      · rw [chainK_succ_zero, if_neg h]
        omega
    | succ j' =>
      by_cases h : (j' + 1) ∈ b2j l (l.getD (i + 1) ' ')
      · have hii : (i + 1) ∈ b2j l (l.getD (i + 1) ' ') := b2j_self_mem h hin
        rw [chainK_succ_succ l i j', if_pos h, chainK_succ_succ l i i, if_pos hii]
        have := ih j' (by omega)
        omega
      · rw [chainK_succ_succ l i j', if_neg h]
        omega

theorem rowVal_step {l : List Char} {i j : Nat} (h : j ∈ b2j l (l.getD i ' ')) :
    (if j = 0 then 0 else rowVal l i (j - 1)) + 1 = chainK l i j := by
  cases j with
  | zero =>
    rw [if_pos rfl]
    cases i with
    | zero => rw [chainK_zero_left, if_pos h]
    | succ i' => rw [chainK_succ_zero, if_pos h]
  | succ j' =>
    rw [if_neg (Nat.succ_ne_zero j')]
    cases i with
    | zero =>
      rw [chainK_zero_left, if_pos h, Nat.add_sub_cancel, rowVal_zero]
    | succ i' =>
      rw [chainK_succ_succ, if_pos h, Nat.add_sub_cancel, rowVal_succ]

theorem b2j_filter_full (l : List Char) (c : Char) :
    (b2j l c).filter (fun j => decide (0 ≤ j) && decide (j < l.length)) = b2j l c := by
  apply List.filter_eq_self.mpr
  intro j hj
  rw [mem_b2j_iff] at hj
  simp [hj.2.1]

theorem b2j_pairwise (l : List Char) (c : Char) : (b2j l c).Pairwise (· < ·) := by
  unfold b2j
  by_cases hp : isPopular l c
  · rw [if_pos hp]
    exact List.Pairwise.nil
  · rw [if_neg hp]
    exact List.Pairwise.sublist (List.filter_sublist _) (List.pairwise_lt_range _)

end SequenceMatcherRefl

section SequenceMatcherRefl2

theorem dpInner_row (j2old : Nat → Nat) (i : Nat) (acc : (Nat → Nat) × Nat × Nat × Nat)
    (j m : Nat) : (dpInner j2old i acc j).1 m =
      if m = j then (if j = 0 then 0 else j2old (j - 1)) + 1 else acc.1 m := by
  by_cases hc : acc.2.2.2 < (if j = 0 then 0 else j2old (j - 1)) + 1
  · unfold dpInner
    rw [if_pos hc]
  · unfold dpInner
    rw [if_neg hc]

theorem dpInner_best (j2old : Nat → Nat) (i : Nat) (acc : (Nat → Nat) × Nat × Nat × Nat)
    (j : Nat) : (dpInner j2old i acc j).2 =
      if acc.2.2.2 < (if j = 0 then 0 else j2old (j - 1)) + 1 then
        (i + 1 - ((if j = 0 then 0 else j2old (j - 1)) + 1),
          j + 1 - ((if j = 0 then 0 else j2old (j - 1)) + 1),
          (if j = 0 then 0 else j2old (j - 1)) + 1)
      else acc.2 := by
  by_cases hc : acc.2.2.2 < (if j = 0 then 0 else j2old (j - 1)) + 1
  · unfold dpInner
    rw [if_pos hc, if_pos hc]
  · unfold dpInner
    rw [if_neg hc, if_neg hc]

theorem dpInner_fold_diag (l : List Char) (i : Nat) (hin : i < l.length)
    (j2old : Nat → Nat) (hrow : ∀ m, j2old m = rowVal l i m) :
    ∀ (js2 done : List Nat) (acc : (Nat → Nat) × Nat × Nat × Nat),
      b2j l (l.getD i ' ') = done ++ js2 →
      (∀ m, acc.1 m = if m ∈ done then chainK l i m else 0) →
      acc.2.1 = acc.2.2.1 →
      (∀ i2, i2 < i → ∀ m, chainK l i2 m ≤ acc.2.2.2) →
      (∀ m ∈ done, chainK l i m ≤ acc.2.2.2) →
      ((∀ m, (js2.foldl (dpInner j2old i) acc).1 m =
          if m ∈ b2j l (l.getD i ' ') then chainK l i m else 0) ∧
        (js2.foldl (dpInner j2old i) acc).2.1 =
          (js2.foldl (dpInner j2old i) acc).2.2.1 ∧
        (∀ i2, i2 < i → ∀ m, chainK l i2 m ≤ (js2.foldl (dpInner j2old i) acc).2.2.2) ∧
        (∀ m ∈ b2j l (l.getD i ' '),
          chainK l i m ≤ (js2.foldl (dpInner j2old i) acc).2.2.2)) := by
  intro js2
  induction js2 with
  | nil =>
    intro done acc hsplit hrowacc hdiag hprev hdone
    rw [List.append_nil] at hsplit
    subst hsplit
    exact ⟨hrowacc, hdiag, hprev, hdone⟩
  | cons j rest ih =>
    intro done acc hsplit hrowacc hdiag hprev hdone
    have hjmem : j ∈ b2j l (l.getD i ' ') := by
      rw [hsplit]
      exact List.mem_append_right done (List.mem_cons_self j rest)
    have hk : (if j = 0 then 0 else j2old (j - 1)) + 1 = chainK l i j := by
      rw [hrow (j - 1)]
      exact rowVal_step hjmem
    rw [List.foldl_cons]
    have hsplit' : b2j l (l.getD i ' ') = (done ++ [j]) ++ rest := by
      rw [hsplit, List.append_assoc, List.singleton_append]
    have hrowacc' : ∀ m, (dpInner j2old i acc j).1 m =
        if m ∈ done ++ [j] then chainK l i m else 0 := by
      intro m
      rw [dpInner_row]
      by_cases hmj : m = j
      · subst hmj
        rw [if_pos rfl, hk, if_pos (List.mem_append_right done (List.mem_singleton.mpr rfl))]
      · rw [if_neg hmj, hrowacc m]
        by_cases hmd : m ∈ done
        · rw [if_pos hmd, if_pos (List.mem_append_left _ hmd)]
        · rw [if_neg hmd, if_neg (by simp [List.mem_append, hmd, hmj])]
    by_cases hup : acc.2.2.2 < (if j = 0 then 0 else j2old (j - 1)) + 1
    · have hieq : i = j := by
        by_contra hne
        rcases Nat.lt_or_ge i j with hij | hij
        · have hmemI : i ∈ b2j l (l.getD i ' ') := b2j_self_mem hjmem hin
          have hidone : i ∈ done := by
            rw [hsplit] at hmemI
            rcases List.mem_append.mp hmemI with hid | hitail
            · exact hid
            · rcases List.mem_cons.mp hitail with heq | hirest
              · omega
              · have hpw := b2j_pairwise l (l.getD i ' ')
                rw [hsplit] at hpw
                have hpj := (List.pairwise_append.mp hpw).2.1
                have hji : j < i := (List.pairwise_cons.mp hpj).1 i hirest
                omega
          have h1 : chainK l i j ≤ chainK l i i := chainK_le_diag_left l i j hin
          have h2 : chainK l i i ≤ acc.2.2.2 := hdone i hidone
          omega
        · have hji : j < i := by omega
          have h1 : chainK l i j ≤ chainK l j j := chainK_le_diag_right l i j
          have h2 : chainK l j j ≤ acc.2.2.2 := hprev j hji j
          omega
      have hbest : (dpInner j2old i acc j).2 =
          (i + 1 - ((if j = 0 then 0 else j2old (j - 1)) + 1),
            j + 1 - ((if j = 0 then 0 else j2old (j - 1)) + 1),
            (if j = 0 then 0 else j2old (j - 1)) + 1) := by
        rw [dpInner_best, if_pos hup]
      have he3 : (dpInner j2old i acc j).2.2.2 =
          (if j = 0 then 0 else j2old (j - 1)) + 1 := by
        rw [hbest]
      have hdiag' : (dpInner j2old i acc j).2.1 = (dpInner j2old i acc j).2.2.1 := by
        rw [hbest]
        subst hieq
        rfl
      have hprev' : ∀ i2, i2 < i → ∀ m, chainK l i2 m ≤ (dpInner j2old i acc j).2.2.2 := by
        intro i2 hi2 m
        have hold := hprev i2 hi2 m
        omega
      have hdone' : ∀ m ∈ done ++ [j], chainK l i m ≤ (dpInner j2old i acc j).2.2.2 := by
        intro m hm
        rcases List.mem_append.mp hm with hmd | hmj
        · have hold := hdone m hmd
          omega
        · have hmej : m = j := List.mem_singleton.mp hmj
          subst hmej
          omega
      exact ih (done ++ [j]) (dpInner j2old i acc j) hsplit' hrowacc' hdiag' hprev' hdone'
    · have hbest : (dpInner j2old i acc j).2 = acc.2 := by
        rw [dpInner_best, if_neg hup]
      have he3 : (dpInner j2old i acc j).2.2.2 = acc.2.2.2 := by
        rw [hbest]
      have hdiag' : (dpInner j2old i acc j).2.1 = (dpInner j2old i acc j).2.2.1 := by
        rw [hbest]
        exact hdiag
      have hprev' : ∀ i2, i2 < i → ∀ m, chainK l i2 m ≤ (dpInner j2old i acc j).2.2.2 := by
        intro i2 hi2 m
        rw [he3]
        exact hprev i2 hi2 m
      have hdone' : ∀ m ∈ done ++ [j], chainK l i m ≤ (dpInner j2old i acc j).2.2.2 := by
        intro m hm
        rw [he3]
        rcases List.mem_append.mp hm with hmd | hmj
        · exact hdone m hmd
        · have hmej : m = j := List.mem_singleton.mp hmj
          subst hmej
          omega
      exact ih (done ++ [j]) (dpInner j2old i acc j) hsplit' hrowacc' hdiag' hprev' hdone'

end SequenceMatcherRefl2

section SequenceMatcherRefl3

theorem dpRounds_diag (l : List Char) :
    ∀ (cnt i : Nat) (j2 : Nat → Nat) (best : Nat × Nat × Nat),
      i + cnt = l.length →
      (∀ m, j2 m = rowVal l i m) →
      best.1 = best.2.1 →
      (∀ i2, i2 < i → ∀ m, chainK l i2 m ≤ best.2.2) →
      ((dpRounds l l 0 l.length i cnt j2 best).2.1 =
        (dpRounds l l 0 l.length i cnt j2 best).2.2.1) := by
  intro cnt
  induction cnt with
  | zero =>
    intro i j2 best _ _ hd _
    exact hd
  | succ cnt ih =>
    intro i j2 best hlen hrow hd hprev
    simp only [dpRounds]
    rw [b2j_filter_full]
    have hfold := dpInner_fold_diag l i (by omega) j2 hrow (b2j l (l.getD i ' ')) []
      ((fun _ => 0), best) (List.nil_append _).symm
      (by intro m; simp)
      hd hprev (by intro m hm; cases hm)
    have hrow' : ∀ m, ((b2j l (l.getD i ' ')).foldl (dpInner j2 i) ((fun _ => 0), best)).1 m =
        rowVal l (i + 1) m := by
      intro m
      rw [hfold.1 m, rowVal_succ]
      by_cases hm : m ∈ b2j l (l.getD i ' ')
      · rw [if_pos hm]
      · rw [if_neg hm, chainK_not_mem hm]
    have hprev' : ∀ i2, i2 < i + 1 → ∀ m, chainK l i2 m ≤
        ((b2j l (l.getD i ' ')).foldl (dpInner j2 i) ((fun _ => 0), best)).2.2.2 := by
      intro i2 hi2 m
      by_cases hii : i2 = i
      · subst hii
        by_cases hm : m ∈ b2j l (l.getD i2 ' ')
        · exact hfold.2.2.2 m hm
        · rw [chainK_not_mem hm]
          omega
      · exact hfold.2.2.1 i2 (by omega) m
    exact ih (i + 1) _ _ (by omega) hrow' hfold.2.1 hprev'

theorem flmDP_diag (l : List Char) :
    (flmDP l l 0 l.length 0 l.length).1 = (flmDP l l 0 l.length 0 l.length).2.1 := by
  unfold flmDP
  exact dpRounds_diag l (l.length - 0) 0 (fun _ => 0) (0, 0, 0) (by omega)
    (fun m => rfl) rfl (fun i2 hi2 => absurd hi2 (Nat.not_lt_zero i2))

theorem extBack_self (l : List Char) :
    ∀ d s, extBack l l 0 0 d d s = (0, 0, s + d) := by
  intro d
  induction d with
  | zero =>
    intro s
    rfl
  | succ d ih =>
    intro s
    simp only [extBack]
    rw [if_pos ⟨by omega, by omega, by simp⟩]
    have hdd : d + 1 - 1 = d := by omega
    rw [hdd, ih (s + 1)]
    have hss : s + 1 + d = s + (d + 1) := by omega
    rw [hss]

theorem extFwd_self (l : List Char) :
    ∀ fuel m, m ≤ l.length → l.length - m ≤ fuel →
      extFwd l l l.length l.length fuel 0 0 m = l.length := by
  intro fuel
  induction fuel with
  | zero =>
    intro m h1 h2
    show m = l.length
    omega
  | succ fuel ih =>
    intro m h1 h2
    simp only [extFwd]
    by_cases hc : 0 + m < l.length ∧ 0 + m < l.length ∧
        (l.getD (0 + m) ' ' == l.getD (0 + m) ' ') = true
    · rw [if_pos hc]
      exact ih (m + 1) (by omega) (by omega)
    · rw [if_neg hc]
      have hnl : ¬(0 + m < l.length) := by
        intro hlt
        exact hc ⟨hlt, hlt, by simp⟩
      omega

theorem flm_self (l : List Char) : flm l l 0 l.length 0 l.length = (0, 0, l.length) := by
  have hd : (flmDP l l 0 l.length 0 l.length).1 = (flmDP l l 0 l.length 0 l.length).2.1 :=
    flmDP_diag l
  obtain ⟨hb1, hb2, hb3, hb4⟩ := flmDP_bounds l l 0 l.length 0 l.length
    (Nat.zero_le _) (Nat.zero_le _)
  have hE : extBack l l 0 0 (flmDP l l 0 l.length 0 l.length).1
      (flmDP l l 0 l.length 0 l.length).2.1 (flmDP l l 0 l.length 0 l.length).2.2 =
      (0, 0, (flmDP l l 0 l.length 0 l.length).2.2 + (flmDP l l 0 l.length 0 l.length).1) := by
    rw [← hd]
    exact extBack_self l (flmDP l l 0 l.length 0 l.length).1
      (flmDP l l 0 l.length 0 l.length).2.2
  unfold flm
  rw [hE]
  show (0, 0, extFwd l l l.length l.length l.length 0 0
      ((flmDP l l 0 l.length 0 l.length).2.2 + (flmDP l l 0 l.length 0 l.length).1)) =
    ((0 : Nat), (0 : Nat), l.length)
  rw [extFwd_self l l.length
    ((flmDP l l 0 l.length 0 l.length).2.2 + (flmDP l l 0 l.length 0 l.length).1)
    (by omega) (by omega)]

theorem ratioQ_self (l : List Char) : ratioQ l l = 1 := by
  unfold ratioQ
  by_cases hT : l.length + l.length = 0
  · rw [if_pos hT]
  · rw [if_neg hT]
    have hn : 0 < l.length := by omega
    have htot : totalM l l (l.length + l.length + 1) 0 l.length 0 l.length = l.length := by
      rw [totalM_succ, flm_self]
      show (if l.length = 0 then 0
        else l.length +
          (if 0 < 0 ∧ 0 < 0 then totalM l l (l.length + l.length) 0 0 0 0 else 0) +
          (if 0 + l.length < l.length ∧ 0 + l.length < l.length then
            totalM l l (l.length + l.length) (0 + l.length) l.length (0 + l.length) l.length
          else 0)) = l.length
      rw [if_neg (by omega), if_neg (by rintro ⟨h1, -⟩; omega),
        if_neg (by rintro ⟨h1, -⟩; omega)]
      omega
    rw [htot]
    have hne : ((l.length + l.length : Nat) : ℚ) ≠ 0 := by
      exact_mod_cast hT
    rw [div_eq_iff hne]
    push_cast
    ring

end SequenceMatcherRefl3

/-- C8 counterexample: `compute_similarity` is NOT symmetric.
`SequenceMatcher(None, a, b).ratio()` depends on the argument order, because
`find_longest_match` breaks ties towards the earliest `i` and the recursive
block decomposition then diverges: for `a = "PPcxdeQQ"`, `b = "QQfgPPhijx"`
the ratio is `1/3` one way and `2/9` the other (CPython's difflib returns
`0.3333...` and `0.2222...` on this pair). -/
theorem c8_counterexample :
    compute_similarity "PPcxdeQQ" "QQfgPPhijx" ≠
      compute_similarity "QQfgPPhijx" "PPcxdeQQ" := by
  have h1 : totalM "PPcxdeQQ".data "QQfgPPhijx".data
      ("PPcxdeQQ".data.length + "QQfgPPhijx".data.length + 1) 0 "PPcxdeQQ".data.length 0
      "QQfgPPhijx".data.length = 3 := by decide
  have h2 : totalM "QQfgPPhijx".data "PPcxdeQQ".data
      ("QQfgPPhijx".data.length + "PPcxdeQQ".data.length + 1) 0 "QQfgPPhijx".data.length 0
      "PPcxdeQQ".data.length = 2 := by decide
  have hl1 : "PPcxdeQQ".data.length = 8 := by decide
  have hl2 : "QQfgPPhijx".data.length = 10 := by decide
  unfold compute_similarity ratioQ
  rw [h1, h2, hl1, hl2]
  norm_num

/-- C8 (amended): the reflexivity and range parts of the claim hold —
`compute_similarity s s = 1` for every string (even when the autojunk
popularity purge empties `b2j` entries, the extension loops restore the full
diagonal), and every value lies in `[0, 1]`.  The symmetry part is refuted
by the counterexample. -/
theorem c8_similarity_reflexive_bounded :
    (∀ s : String, compute_similarity s s = 1) ∧
    (∀ a b : String, 0 ≤ compute_similarity a b ∧ compute_similarity a b ≤ 1) :=
  ⟨fun s => ratioQ_self s.data, fun a b => ratioQ_bounds a.data b.data⟩
